import Mathlib

/-!
Verification development for the investor follow-up bot.

This file gives a shallow embedding, in Lean, of the parts of the bot that
its specification makes checkable claims about:

* the fuzzy investor-name resolution pipeline
  (`src/utils/nameMatch.js`, `resolveInvestor` in `src/slack/commands.js`);
* the touchpoint-logging handler and the cadence configuration
  (`handleLogTouchpoint` in `src/slack/commands.js`, `src/config.js`,
  `removeGoingColdFlag` in `src/monday/mutations.js`);
* the natural-date interpreter defaulting step (`src/utils/dateParser.js`);
* the reminder store and the reminder checker tick
  (`src/reminders/store.js`, `src/reminders/checker.js`);
* the Monday.com API client retry policy (`src/monday/client.js`);
* the AI intent-parser fallback hardening (`src/ai/intentParser.js`);
* the board query functions (`src/monday/queries.js`);
* the message router (`registerCommands` in `src/slack/commands.js`).

External libraries that the code calls (the Fuse.js fuzzy scorer, the
chrono-node date phrase parser, the JSON parser of the JavaScript runtime,
the network transport) are modelled as explicit function parameters or as
abstract result values; everything the repository itself computes with
those results is translated directly from the JavaScript source.

Machine numbers: the scores and confidences involved are small decimal
constants, modelled as rationals; calendar days and timestamps are
modelled as integers.
-/

namespace FollowUpBot

/- ===================================================================
   Small JavaScript-flavoured string utilities, used across modules.
   =================================================================== -/

/-- Character class of the JavaScript regex `\s` restricted to the
whitespace characters that actually occur in this code base
(space, tab, line feed, carriage return). -/
def isJsWs (c : Char) : Bool :=
  c = ' ' || c = '\t' || c = '\n' || c = '\r'

/-- Lowercasing of a string, as `String.prototype.toLowerCase` behaves on
the ASCII names handled by the bot. -/
def jsLower (s : String) : String :=
  ⟨s.data.map Char.toLower⟩

/-- Containment check on character lists: does `needle` occur as a
contiguous segment of `hay`?  This is `String.prototype.includes`. -/
def listIncludes (needle : List Char) : List Char → Bool
  | [] => needle.isEmpty
  | c :: rest => needle.isPrefixOf (c :: rest) || listIncludes needle rest

/-- Containment as `hay.includes(needle)` on strings. -/
def strIncludes (hay needle : String) : Bool :=
  listIncludes needle.data hay.data

/-- Trimming as `String.prototype.trim`: drop `\s`-class characters from
both ends. -/
def jsTrim (s : String) : String :=
  ⟨((s.data.dropWhile isJsWs).reverse.dropWhile isJsWs).reverse⟩

/-- The red-circle "going cold" marker glyph `U+1F534`, written in the
JavaScript sources as the surrogate pair `🔴`. -/
def redCircle : Char := '🔴'

/-- Test used by both `nameMatch.js` and `mutations.js`:
`name.startsWith('🔴')`. -/
def flagPresent (s : String) : Bool :=
  match s.data with
  | [] => false
  | c :: _ => c = redCircle

/-- Effect of `name.replace(/^\u{1F534}\s*/u, '')`: when the name starts
with the red-circle glyph, drop it together with the following whitespace
run; otherwise the anchored regex does not match and the string is kept. -/
def removeFlagPrefix (s : String) : String :=
  if flagPresent s then ⟨(s.data.drop 1).dropWhile isJsWs⟩ else s

/- ===================================================================
   Investor records and the fuzzy entity matcher (`src/utils/nameMatch.js`).
   =================================================================== -/

/-- An investor record as produced by `parseInvestor` in
`src/monday/queries.js`; only the fields consumed by the claims under
study are carried. -/
structure Investor where
  id : String
  name : String
  status : String
  email : String
  phone : String
  dealInterest : String
  deriving DecidableEq, Repr

/-- A record paired with its cleaned name, mirroring the objects built by
`findBestMatch` via `{ ...inv, cleanName: ... }`.  The matcher is generic
in the record type because the source applies it both to investor records
and to Relationship Management board items. -/
structure Prepared (α : Type) where
  item : α
  cleanName : String
  deriving DecidableEq, Repr

/-- Name cleaning in `nameMatch.js`:
`inv.name.replace(/^\u{1F534}\s*/u, '').trim()`. -/
def cleanInvestorName (s : String) : String :=
  jsTrim (removeFlagPrefix s)

/-- A scored search hit as returned by `fuse.search`:
the matched prepared record plus its normalized distance
(0 = identical .. 1 = unrelated). -/
structure Scored (α : Type) where
  item : Prepared α
  score : ℚ
  deriving DecidableEq, Repr

/-- The Fuse.js search call, abstracted: given the prepared record list and
the search string it returns the scored hits, best first.  Fuse.js is an
external library, so the matcher is a parameter of the embedding; nothing
below depends on how it scores. -/
abbrev FuseSearch (α : Type) : Type := List (Prepared α) → String → List (Scored α)

/-- Result shape of `findBestMatch`: best match, its score, and the close
alternatives (name and score of hits within 0.1 of the top score). -/
structure MatchResult (α : Type) where
  minv : α
  score : ℚ
  alternatives : List (String × ℚ)
  deriving DecidableEq, Repr

/-- Preparation step of `findBestMatch`; `getName` reads the `.name`
property of a record. -/
def prepareRecords (getName : α → String) (records : List α) :
    List (Prepared α) :=
  records.map (fun i => ⟨i, cleanInvestorName (getName i)⟩)

/-- Translation of `findBestMatch` from `src/utils/nameMatch.js`.
Empty search string or empty record list return null; an empty hit list
returns null; a top score above 0.4 returns null; otherwise the top hit is
returned together with the hits whose score is within 0.1 of it. -/
def findBestMatch (getName : α → String) (fuse : FuseSearch α)
    (searchName : String) (records : List α) : Option (MatchResult α) :=
  if searchName.data.isEmpty || records.isEmpty then none
  else
    match fuse (prepareRecords getName records) searchName with
    | [] => none
    | top :: rest =>
      if top.score > 2/5 then none
      else
        some { minv := top.item.item
               score := top.score
               alternatives :=
                 (rest.filter (fun r => |r.score - top.score| < 1/10)).map
                   (fun r => (getName r.item.item, r.score)) }

/- ===================================================================
   Investor resolution (`resolveInvestor` in `src/slack/commands.js`).
   =================================================================== -/

/-- The leading preposition words stripped by `stripNamePrefix` in
`src/slack/commands.js`, in the order the regex alternation tries them. -/
def prepositionWords : List (List Char) :=
  ["with".data, "for".data, "to".data, "on".data, "about".data,
   "regarding".data]

/-- Case-insensitive match of one alternative of the anchored regex
`^(?:with|for|to|on|about|regarding)\s+`: the word followed by at least
one whitespace character.  On success the remainder after the greedy
whitespace run is returned. -/
def stripPrepWord (w : List Char) (s : List Char) : Option (List Char) :=
  if w.isPrefixOf (s.map Char.toLower) then
    match s.drop w.length with
    | [] => none
    | c :: rest => if isJsWs c then some (rest.dropWhile isJsWs) else none
  else none

/-- First preposition alternative that matches at the start of the string,
with the remainder after the stripped whitespace run. -/
def stripPrepOnce (s : String) : Option String :=
  match prepositionWords.findSome? (fun w => stripPrepWord w s.data) with
  | some rest => some ⟨rest⟩
  | none => none

/-- Translation of `stripNamePrefix` (the name is adjusted because of the
surrounding Lean conventions):
`name.replace(/^(?:with|for|to|on|about|regarding)\s+/i, '').trim()`.
Only the first leading preposition is removed, and the result is trimmed
whether or not the regex matched. -/
def stripLeadingPreposition (s : String) : String :=
  match stripPrepOnce s with
  | some rest => jsTrim rest
  | none => jsTrim s

/-- Failure replies of `resolveInvestor`, one constructor per template
string in the source, carrying exactly the data interpolated into the
template:
* `mondayUnreachable` — "Sorry, I could not reach Monday.com right now.
  Please try again in a moment."
* `noActiveInvestors` — "No active investors found in Monday.com."
* `noMatchFound` — "I could not find an investor matching (cleanName).
  Please check the spelling and try again."
* `noCloseMatch` — "I could not find a close match for (cleanName).
  Did you mean one of these?" followed by the bulleted candidate names. -/
inductive ResolveError where
  | mondayUnreachable : ResolveError
  | noActiveInvestors : ResolveError
  | noMatchFound (cleanName : String) : ResolveError
  | noCloseMatch (cleanName : String) (candidateNames : List String) :
      ResolveError
  deriving DecidableEq, Repr

/-- Candidate names surfaced by a failure reply: only the
`noCloseMatch` template interpolates record names
(`investors.slice(0, 5).map(i => i.name)`). -/
def surfacedNames : ResolveError → List String
  | .noCloseMatch _ names => names
  | _ => []

/-- Outcome of `resolveInvestor`: either a matched investor record or a
failure reply. -/
inductive ResolveResult where
  | found (inv : Investor) : ResolveResult
  | failed (e : ResolveError) : ResolveResult
  deriving DecidableEq, Repr

/-- Translation of `resolveInvestor` from `src/slack/commands.js`.
`fetched` is the outcome of the `getActiveInvestors()` call: exceptional
(`Except.error`) or a record list.  The search name is first stripped of a
leading preposition, the acceptance threshold on the best score is 0.35,
and the disambiguation reply lists the first five record names. -/
def resolveInvestor (fuse : FuseSearch Investor)
    (fetched : Except String (List Investor)) (searchName : String) :
    ResolveResult :=
  let cleanName := stripLeadingPreposition searchName
  match fetched with
  | .error _ => .failed .mondayUnreachable
  | .ok investors =>
    if investors.isEmpty then .failed .noActiveInvestors
    else
      match findBestMatch Investor.name fuse cleanName investors with
      | none => .failed (.noMatchFound cleanName)
      | some r =>
        if r.score > 7/20 then
          .failed (.noCloseMatch cleanName
            ((investors.take 5).map (fun i => i.name)))
        else .found r.minv

/- ===================================================================
   Cadence configuration (`src/config.js`) and the board-state model for
   the touchpoint handler (`handleLogTouchpoint` in `src/slack/commands.js`
   together with `src/monday/mutations.js`).
   =================================================================== -/

/-- One cadence tier of the static configuration: minimum and maximum
expected contact interval, the going-cold threshold, and the
auto-reschedule offset applied after a logged contact. -/
structure CadenceTier where
  minDays : ℤ
  maxDays : ℤ
  coldAfter : ℤ
  autoNextDays : ℤ
  deriving DecidableEq, Repr

/-- The `cadence` table of `src/config.js`, keyed by status label. -/
def cadenceConfig : List (String × CadenceTier) :=
  [("🔥 Hot Lead", ⟨1, 3, 4, 1⟩),
   ("🟡 Warm Prospect", ⟨5, 7, 8, 5⟩),
   ("🔵 Cold / New Lead", ⟨14, 21, 22, 14⟩),
   ("🔵 Cold / New", ⟨14, 21, 22, 14⟩),
   ("✅ Committed", ⟨7, 7, 10, 7⟩),
   ("💰 Funded", ⟨30, 30, 45, 30⟩)]

/-- Property lookup `config.cadence[investor.status]`. -/
def cadenceLookup (status : String) : Option CadenceTier :=
  (cadenceConfig.find? (fun p => p.fst = status)).map (fun p => p.snd)

/-- One item of the Monday.com investor board as far as the touchpoint
handler mutates it: display name and the two date columns, dates as day
numbers. -/
structure BoardItem where
  id : String
  name : String
  lastContact : Option ℤ
  nextFollowUp : Option ℤ
  deriving DecidableEq, Repr

/-- The investor board, the remote state mutated by
`src/monday/mutations.js`. -/
abbrev Board : Type := List BoardItem

/-- Success flags for the three write calls a touchpoint can issue; each
mutation helper in `mutations.js` returns null (and leaves the board
unchanged) when the underlying API call fails. -/
structure MutationApi where
  contactOk : Bool
  followOk : Bool
  nameOk : Bool
  deriving DecidableEq, Repr

/-- Board effect of `updateLastContactDate(itemId, dateStr)`: on success
the date column of every item with the given id is set. -/
def applyLastContact (ok : Bool) (itemId : String) (day : ℤ) (b : Board) :
    Board :=
  if ok then
    b.map (fun it =>
      if it.id = itemId then { it with lastContact := some day } else it)
  else b

/-- Board effect of `updateNextFollowUp(itemId, dateStr)`. -/
def applyNextFollowUp (ok : Bool) (itemId : String) (day : ℤ) (b : Board) :
    Board :=
  if ok then
    b.map (fun it =>
      if it.id = itemId then { it with nextFollowUp := some day } else it)
  else b

/-- Board effect of `updateItemName(itemId, newName)`. -/
def applyItemName (ok : Bool) (itemId : String) (newName : String)
    (b : Board) : Board :=
  if ok then
    b.map (fun it =>
      if it.id = itemId then { it with name := newName } else it)
  else b

/-- Translation of `removeGoingColdFlag` from `src/monday/mutations.js`:
nothing happens unless the current name starts with the red-circle glyph;
otherwise the item name is rewritten with the glyph and the following
whitespace removed. -/
def removeGoingColdFlag (ok : Bool) (itemId : String) (currentName : String)
    (b : Board) : Board :=
  if flagPresent currentName then
    applyItemName ok itemId (removeFlagPrefix currentName) b
  else b

/-- Board effect of `handleLogTouchpoint` in `src/slack/commands.js`, for
an already-resolved investor record, with `today` the current day.
The handler first writes the last-contact date (returning early if that
write fails), then — only when the status has a cadence tier — writes the
next-follow-up date as today plus the tier offset, then removes the
going-cold marker when the resolved name carries it.  (The follow-up
writes to the Relationship Management and Communications Log boards touch
other boards and are outside this state.) -/
def handleLogTouchpoint (api : MutationApi) (inv : Investor) (today : ℤ)
    (b : Board) : Board :=
  let b1 := applyLastContact api.contactOk inv.id today b
  if api.contactOk = false then b1
  else
    let b2 :=
      match cadenceLookup inv.status with
      | some tier =>
        applyNextFollowUp api.followOk inv.id (today + tier.autoNextDays) b1
      | none => b1
    if flagPresent inv.name then removeGoingColdFlag api.nameOk inv.id inv.name b2
    else b2

/- ===================================================================
   Reminder store and checker (`src/reminders/store.js`,
   `src/reminders/checker.js`).
   =================================================================== -/

/-- A stored reminder (`src/reminders/store.js`), with the fire time as an
absolute timestamp. -/
structure Reminder where
  id : String
  itemId : String
  investorName : String
  scheduledAt : ℤ
  userEmail : Option String
  deriving DecidableEq, Repr

/-- The in-memory reminder list, persisted to `reminders.json` on every
mutation. -/
abbrev ReminderStore : Type := List Reminder

/-- Translation of `getDueReminders`: the reminders whose fire time is at
or before now. -/
def getDueReminders (now : ℤ) (store : ReminderStore) : ReminderStore :=
  store.filter (fun r => r.scheduledAt ≤ now)

/-- Translation of `removeReminder`: drop every stored reminder carrying
the given id. -/
def removeReminder (id : String) (store : ReminderStore) : ReminderStore :=
  store.filter (fun r => ¬ r.id = id)

/-- Investor lookup of the checker: by item id first
(`inv.id === reminder.itemId`), then by case-insensitive name containment. -/
def findReminderInvestor (investors : List Investor) (r : Reminder) :
    Option Investor :=
  match investors.find? (fun i => i.id = r.itemId) with
  | some inv => some inv
  | none =>
    investors.find?
      (fun i => strIncludes (jsLower i.name) (jsLower r.investorName))

/-- Store effect of one per-reminder iteration of the checker tick.
`sendOk r` tells whether the notification side effects (AI suggestion,
email, Slack post) for `r` ran without throwing.  Every branch of the
source — investor not found, notification processed, notification threw
(the inner catch) — ends in `removeReminder(reminder.id)`. -/
def processDueReminder (investors : List Investor)
    (sendOk : Reminder → Bool) (st : ReminderStore) (r : Reminder) :
    ReminderStore :=
  match findReminderInvestor investors r with
  | none => removeReminder r.id st
  | some _ =>
    if sendOk r then removeReminder r.id st
    else removeReminder r.id st

/-- Store effect of one tick of `startReminderChecker`: compute the due
set, then process each due reminder in order.  (The early return on an
empty due set coincides with folding over the empty list.) -/
def checkerTick (now : ℤ) (investors : List Investor)
    (sendOk : Reminder → Bool) (store : ReminderStore) : ReminderStore :=
  (getDueReminders now store).foldl (processDueReminder investors sendOk)
    store

/- ===================================================================
   Board query functions (`src/monday/queries.js`).

   `fetchAllBoardItems` drives the paginated GraphQL read and can throw
   (its errors come out of `mondayApi`); its outcome for one call is
   modelled as an `Except`: either the accumulated raw item list or an
   exception.  The raw item type and the per-item decoder
   (`parseInvestor` / `parseRMItem`, plain column decoding) are
   abstracted as parameters: the claims under study only depend on what
   each query function does with the fetch outcome.
   =================================================================== -/

/-- A Relationship Management board item as produced by `parseRMItem`;
only the fields the claims touch are carried. -/
structure RMItem where
  id : String
  name : String
  deriving DecidableEq, Repr

/-- Status filter of `getActiveInvestors`: keep records whose lowercased
status contains neither "passed" nor "inactive". -/
def isActiveStatus (inv : Investor) : Bool :=
  !(strIncludes (jsLower inv.status) "passed") &&
  !(strIncludes (jsLower inv.status) "inactive")

/-- Translation of `getActiveInvestors`: decode every fetched item and
keep the active ones; any thrown error is caught and an empty list is
returned. -/
def getActiveInvestors (parseItem : ρ → Investor)
    (fetched : Except String (List ρ)) : List Investor :=
  match fetched with
  | .ok items => (items.map parseItem).filter isActiveStatus
  | .error _ => []

/-- Translation of `getAllInvestors`: decode every fetched item; any
thrown error is caught and an empty list is returned. -/
def getAllInvestors (parseItem : ρ → Investor)
    (fetched : Except String (List ρ)) : List Investor :=
  match fetched with
  | .ok items => items.map parseItem
  | .error _ => []

/-- Translation of `getInvestorByName`: case-insensitive containment
filter over `getAllInvestors`; its own catch also returns an empty
list. -/
def getInvestorByName (parseItem : ρ → Investor)
    (fetched : Except String (List ρ)) (name : String) : List Investor :=
  (getAllInvestors parseItem fetched).filter
    (fun inv => strIncludes (jsLower inv.name) (jsLower name))

/-- Translation of `getRMBoardItems`: decode every fetched item; any
thrown error is caught and an empty list is returned. -/
def getRMBoardItems (parseRM : ρ → RMItem)
    (fetched : Except String (List ρ)) : List RMItem :=
  match fetched with
  | .ok items => items.map parseRM
  | .error _ => []

/-- Translation of `searchRMByInvestorName`: fuzzy-match the name against
the RM board items with the 0.35 acceptance threshold; on acceptance the
best match is returned together with the items found by exact name for
each close alternative; every failure path returns an empty list. -/
def searchRMByInvestorName (parseRM : ρ → RMItem)
    (fetched : Except String (List ρ)) (fuse : FuseSearch RMItem)
    (name : String) : List RMItem :=
  let rmItems := getRMBoardItems parseRM fetched
  if rmItems.isEmpty then []
  else
    match findBestMatch RMItem.name fuse name rmItems with
    | none => []
    | some r =>
      if r.score > 7/20 then []
      else
        r.minv ::
          r.alternatives.filterMap
            (fun alt => rmItems.find? (fun i => i.name = alt.fst))

/- ===================================================================
   Monday.com API client retry policy (`mondayApi` in
   `src/monday/client.js`).

   One HTTP attempt is modelled by what the code observes of it: the
   fetch can reject outright; otherwise it yields a status code and a
   body, whose JSON decoding can fail or produce a GraphQL payload with
   an error list, a legacy `error_message`, or data.  The data itself is
   opaque (type parameter).
   =================================================================== -/

/-- What the client reads from one GraphQL error entry: whether its
message contains "rate limit" (lowercased) and whether its extension code
is `RATE_LIMIT`. -/
structure GqlError where
  mentionsRateLimit : Bool
  extRateLimit : Bool
  deriving DecidableEq, Repr

/-- Body of an HTTP response once the status check passed:
`response.json()` either throws or yields `errors` / `error_message` /
`data`. -/
inductive RespBody (α : Type) where
  | badJson : RespBody α
  | payload (errors : List GqlError) (errorMessage : Option String)
      (value : α) : RespBody α
  deriving DecidableEq, Repr

/-- One attempt of the `fetch` call as the client observes it. -/
inductive ApiAttempt (α : Type) where
  | transportThrow : ApiAttempt α
  | resp (status : ℕ) (body : RespBody α) : ApiAttempt α
  deriving DecidableEq, Repr

/-- Error classes the client can surface to its caller. -/
inductive ApiFailure where
  | httpError (status : ℕ) : ApiFailure
  | graphqlErrors (rateLimit : Bool) : ApiFailure
  | apiErrorMessage : ApiFailure
  | jsonParseError : ApiFailure
  | transportError : ApiFailure
  deriving DecidableEq, Repr

/-- The `response.ok` predicate of the fetch API: status 200–299. -/
def isOkStatus (status : ℕ) : Bool :=
  200 ≤ status && status < 300

/-- The HTTP statuses the client treats as transient:
`response.status === 429 || response.status >= 500`. -/
def isRetryStatus (status : ℕ) : Bool :=
  status = 429 || 500 ≤ status

/-- Rate-limit detection over the GraphQL error list:
`errors.some(e => message includes rate limit or extensions.code ===
RATE_LIMIT)`. -/
def hasRateLimitSignal (errors : List GqlError) : Bool :=
  errors.any (fun e => e.mentionsRateLimit || e.extRateLimit)

/-- Classification of a single attempt by `attempt(retryCount)` in
`mondayApi`, in source order: 429/5xx statuses are marked retryable only
on the first attempt (`retryCount === 0`) and otherwise fall through to
the plain non-OK branch; after an OK status the body is decoded and a
rate-limited GraphQL error list is likewise retryable only on the first
attempt; everything else throws non-retryable.  The `Bool` of the error
case is the `err.retryable` mark. -/
def classifyAttempt (retryCount : ℕ) (a : ApiAttempt α) :
    Except (Bool × ApiFailure) α :=
  match a with
  | .transportThrow => .error (false, .transportError)
  | .resp status body =>
    if isRetryStatus status && retryCount = 0 then
      .error (true, .httpError status)
    else if !isOkStatus status then .error (false, .httpError status)
    else
      match body with
      | .badJson => .error (false, .jsonParseError)
      | .payload errors errorMessage value =>
        if !errors.isEmpty then
          if hasRateLimitSignal errors && retryCount = 0 then
            .error (true, .graphqlErrors true)
          else .error (false, .graphqlErrors (hasRateLimitSignal errors))
        else
          match errorMessage with
          | some _ => .error (false, .apiErrorMessage)
          | none => .ok value

/-- Observable outcome of one `mondayApi` call: the surfaced result, how
many HTTP attempts were made, and how long the client slept between
them. -/
structure ApiOutcome (α : Type) where
  result : Except ApiFailure α
  attempts : ℕ
  sleptMs : ℕ
  deriving Repr

/-- Translation of the retry control flow of `mondayApi`: run
`attempt(0)`; on an error marked retryable, sleep 30 seconds and run
`attempt(1)`, whose outcome — success or error of any kind — is final;
on an error not marked retryable, surface it at once. -/
def mondayApi (a0 a1 : ApiAttempt α) : ApiOutcome α :=
  match classifyAttempt 0 a0 with
  | .ok v => ⟨.ok v, 1, 0⟩
  | .error (retryable, e) =>
    if retryable then
      match classifyAttempt 1 a1 with
      | .ok v => ⟨.ok v, 2, 30000⟩
      | .error (_, e2) => ⟨.error e2, 2, 30000⟩
    else ⟨.error e, 1, 0⟩

/-- The retryable class of responses named by the specification: HTTP 429
or 5xx, or an OK response whose GraphQL error list carries a rate-limit
signal. -/
def retryableAttempt : ApiAttempt α → Bool
  | .transportThrow => false
  | .resp status .badJson => isRetryStatus status
  | .resp status (.payload errors _ _) =>
    isRetryStatus status || (isOkStatus status && hasRateLimitSignal errors)

/- ===================================================================
   Natural-date interpreter (`parseNaturalDate` in
   `src/utils/dateParser.js`).

   The chrono-node phrase parser is external: its outcome (including the
   retries with the "on " and "at " prefixes) is modelled as an optional
   parsed instant together with the `isCertain(hour)` flag.  What the
   repository itself computes — the default-time branch that overwrites
   the UTC hour — is translated below.  A JavaScript `Date` is modelled
   by its UTC calendar date and UTC time of day; `getTimezoneOffset()`
   of the host timezone is a function from the calendar date to an
   offset in minutes (positive west of UTC), sampled at day granularity,
   which is exact at the hours this code manipulates.
   =================================================================== -/

/-- A calendar date (year, month 1–12, day 1–31). -/
structure CalDate where
  y : ℤ
  m : ℤ
  d : ℤ
  deriving DecidableEq, Repr

/-- A timezone, as the code observes one: the `getTimezoneOffset` value
in minutes for (the civil date of) a given calendar date. -/
abbrev TzOffset : Type := CalDate → ℤ

/-- An instant as a JavaScript `Date`: UTC calendar date plus UTC time of
day. -/
structure JsInstant where
  day : CalDate
  utcHour : ℤ
  utcMin : ℤ
  deriving DecidableEq, Repr

/-- What `parseNaturalDate` reads off a successful chrono parse: the
instant `parsed.start.date()` and the flag
`parsed.start.isCertain('hour')`. -/
structure ChronoParse where
  instant : JsInstant
  certainHour : Bool
  deriving DecidableEq, Repr

/-- The DST heuristic of `parseNaturalDate`: the standard offset is the
larger of the offsets of January 1 and July 1 of the year of the target
date, and DST is in effect when the offset of the target date is smaller.
All offsets are those of the timezone the process runs in. -/
def hostIsDST (host : TzOffset) (day : CalDate) : Bool :=
  let stdOffset := max (host ⟨day.y, 1, 1⟩) (host ⟨day.y, 7, 1⟩)
  decide (host day < stdOffset)

/-- The UTC hour written by `date.setUTCHours(9 + centralOffsetHours, 0,
0, 0)`: 9 plus 5 (CDT) or 6 (CST) depending on the DST heuristic. -/
def defaultUtcHour (host : TzOffset) (day : CalDate) : ℤ :=
  9 + (if hostIsDST host day then 5 else 6)

/-- Translation of `parseNaturalDate`: a failed chrono parse returns
null; with an explicit hour the parsed instant is returned unchanged and
`hasTime` is true; otherwise the UTC hour is overwritten with the 9 AM
Central default and `hasTime` is false. -/
def parseNaturalDate (host : TzOffset) (chrono : Option ChronoParse) :
    Option (JsInstant × Bool) :=
  match chrono with
  | none => none
  | some c =>
    if c.certainHour then some (c.instant, true)
    else
      some ({ c.instant with
                utcHour := defaultUtcHour host c.instant.day
                utcMin := 0 },
            false)

/-- Day of week by the Gregorian Zeller congruence: 0 = Saturday,
1 = Sunday, ..., 6 = Friday. -/
def zellerDow (y m d : ℤ) : ℤ :=
  let yy := if m ≤ 2 then y - 1 else y
  let mm := if m ≤ 2 then m + 12 else m
  let k := yy % 100
  let j := yy / 100
  (d + (13 * (mm + 1)) / 5 + k + k / 4 + j / 4 + 5 * j) % 7

/-- Day of the month of the first Sunday of the given month. -/
def firstSundayOf (y m : ℤ) : ℤ :=
  1 + (1 - zellerDow y m 1) % 7

/-- United States daylight-saving rule (2007 onward): DST from the second
Sunday of March to the first Sunday of November.  The `America/New_York`
and `America/Chicago` zones share these transition dates. -/
def usDST (c : CalDate) : Bool :=
  (decide (3 < c.m) && decide (c.m < 11)) ||
  (decide (c.m = 3) && decide (firstSundayOf c.y 3 + 7 ≤ c.d)) ||
  (decide (c.m = 11) && decide (c.d < firstSundayOf c.y 11))

/-- The `getTimezoneOffset` function of the configured civil timezone
`America/New_York` (`config.timezone` in `src/config.js`): 240 minutes
under EDT, 300 under EST. -/
def nyOffset : TzOffset :=
  fun c => if usDST c then 240 else 300

/-- Civil hour of an instant in the `America/New_York` timezone (exact
for the mid-day UTC hours this development evaluates). -/
def nyCivilHour (i : JsInstant) : ℤ :=
  i.utcHour - nyOffset i.day / 60

/- ===================================================================
   Intent-parser fallback (`parseIntent` in `src/ai/intentParser.js`).

   The remote classifier reply is either a thrown transport error or a
   text.  `JSON.parse` of the runtime is abstracted as a function from
   strings to an optional JSON value (`none` = throws).  JSON values and
   the property reads/writes the validation code performs on them are
   modelled by `JsVal`; arrays carry an (initially empty) expando
   property list because JavaScript arrays accept named properties.
   =================================================================== -/

/-- A JavaScript JSON value. -/
inductive JsVal where
  | jnull : JsVal
  | jbool (b : Bool) : JsVal
  | jnum (q : ℚ) : JsVal
  | jstr (s : String) : JsVal
  | jarr (elems : List JsVal) (props : List (String × JsVal)) : JsVal
  | jobj (fields : List (String × JsVal)) : JsVal
  deriving Repr

/-- Property read `v[k]`; `none` is `undefined`.  (The null case is
handled by the caller, where the access throws.) -/
def getProp (v : JsVal) (k : String) : Option JsVal :=
  match v with
  | .jobj fields => (fields.find? (fun p => p.fst = k)).map (fun p => p.snd)
  | .jarr _ props => (props.find? (fun p => p.fst = k)).map (fun p => p.snd)
  | _ => none

/-- Association update used by property writes: an existing key is
updated in place, a new key is appended. -/
def setAssoc : List (String × JsVal) → String → JsVal →
    List (String × JsVal)
  | [], k, x => [(k, x)]
  | p :: rest, k, x =>
    if p.fst = k then (k, x) :: rest else p :: setAssoc rest k x

/-- Property write `v[k] = x`: effective on objects and arrays, a silent
no-op on primitives (non-strict mode). -/
def setProp (v : JsVal) (k : String) (x : JsVal) : JsVal :=
  match v with
  | .jobj fields => .jobj (setAssoc fields k x)
  | .jarr elems props => .jarr elems (setAssoc props k x)
  | other => other

/-- JavaScript falsiness of `parsed.action` (with `none` = undefined). -/
def jsFalsy : Option JsVal → Bool
  | none => true
  | some .jnull => true
  | some (.jbool b) => !b
  | some (.jnum q) => decide (q = 0)
  | some (.jstr s) => s.data.isEmpty
  | some (.jarr _ _) => false
  | some (.jobj _) => false

/-- The test `typeof parsed.confidence === number`. -/
def isJsNumber : Option JsVal → Bool
  | some (.jnum _) => true
  | _ => false

/-- The test `Array.isArray(parsed.missing_info)`. -/
def isJsArray : Option JsVal → Bool
  | some (.jarr _ _) => true
  | _ => false

/-- The null test guarding the validation: reading a property of `null`
throws. -/
def isJNull : JsVal → Bool
  | .jnull => true
  | _ => false

/-- Whether a JavaScript value accepts property writes (objects and
arrays do; primitives reject them silently in non-strict mode). -/
def settable : JsVal → Bool
  | .jobj _ => true
  | .jarr _ _ => true
  | _ => false

/-- First validation statement of `parseIntent`:
`if (!parsed.action) parsed.action = unknown`. -/
def jsStep1 (v : JsVal) : JsVal :=
  if jsFalsy (getProp v "action") then
    setProp v "action" (.jstr "unknown")
  else v

/-- Second validation statement:
`if (typeof parsed.confidence !== number) parsed.confidence = 0.5`. -/
def jsStep2 (v : JsVal) : JsVal :=
  if isJsNumber (getProp v "confidence") then v
  else setProp v "confidence" (.jnum (1/2))

/-- Third validation statement:
`if (!Array.isArray(parsed.missing_info)) parsed.missing_info = []`. -/
def jsStep3 (v : JsVal) : JsVal :=
  if isJsArray (getProp v "missing_info") then v
  else setProp v "missing_info" (.jarr [] [])

/-- Validation and defaulting block of `parseIntent`, applied to the
value produced by `JSON.parse`.  Reading a property of `null` throws (the
`Except.error` case, caught by the enclosing try).  Otherwise the three
defaulting statements run — the writes being silent no-ops on primitive
values — and the final success log line evaluates
`parsed.missing_info.join`, which throws when `missing_info` is still not
an array. -/
def jsValidate (v : JsVal) : Except Unit JsVal :=
  if isJNull v then .error ()
  else
    let v3 := jsStep3 (jsStep2 (jsStep1 v))
    if isJsArray (getProp v3 "missing_info") then .ok v3 else .error ()

/-- The intent object built by the early-return paths of `parseIntent`:
`{ action: unknown, confidence: 0, missing_info: [] }`. -/
def unknownIntent : JsVal :=
  .jobj [("action", .jstr "unknown"), ("confidence", .jnum 0),
         ("missing_info", .jarr [] [])]

/-- The intent object built by the catch path of `parseIntent`:
`{ action: unknown, confidence: 0, error: err.message, missing_info: [] }`. -/
def caughtIntent (errMessage : String) : JsVal :=
  .jobj [("action", .jstr "unknown"), ("confidence", .jnum 0),
         ("error", .jstr errMessage), ("missing_info", .jarr [] [])]

/-- Leading fence strip
`jsonStr.replace(/^```(?:json)?\s*/, )`: drop the three backticks, then
an optional literal "json", then the whitespace run. -/
def stripLeadFence (l : List Char) : List Char :=
  let afterTicks := l.drop 3
  let afterJson :=
    if "json".data.isPrefixOf afterTicks then afterTicks.drop 4
    else afterTicks
  afterJson.dropWhile isJsWs

/-- Trailing fence strip `.replace(/\s*```$/, )`: when the string ends in
three backticks, drop them and the whitespace run before them. -/
def stripTrailFence (l : List Char) : List Char :=
  let r := l.reverse
  if "```".data.isPrefixOf r then ((r.drop 3).dropWhile isJsWs).reverse
  else l

/-- Fence handling of `parseIntent`: both replaces run only when the
trimmed reply starts with three backticks. -/
def stripFences (s : String) : String :=
  if "```".data.isPrefixOf s.data then
    ⟨stripTrailFence (stripLeadFence s.data)⟩
  else s

/-- The remote classifier call as `parseIntent` observes it: the request
threw, or a reply text came back. -/
inductive ClassifierResult where
  | threw (errMessage : String) : ClassifierResult
  | replied (text : String) : ClassifierResult
  deriving Repr

/-- Placeholder for the runtime exception texts of the two in-try throw
sites (`JSON.parse` failure, property access throw), which the code
stores in the `error` field of the fallback intent; their exact wording
is produced by the JavaScript runtime and is opaque to this embedding. -/
def runtimeErrorText : String := "runtime error"

/-- Translation of `parseIntent` from `src/ai/intentParser.js`.
A missing or blank message text returns the unknown intent before any
network call; a thrown request or an empty reply returns the unknown
intent; otherwise the reply is fence-stripped and JSON-parsed, the parse
or validation throwing into the catch path. -/
def parseIntent (jsonParse : String → Option JsVal)
    (messageText : Option String) (resp : ClassifierResult) : JsVal :=
  match messageText with
  | none => unknownIntent
  | some t =>
    if (jsTrim t).data.isEmpty then unknownIntent
    else
      match resp with
      | .threw errMessage => caughtIntent errMessage
      | .replied raw =>
        let text := jsTrim raw
        if text.data.isEmpty then unknownIntent
        else
          match jsonParse (stripFences text) with
          | none => caughtIntent runtimeErrorText
          | some j =>
            match jsValidate j with
            | .ok v => v
            | .error _ => caughtIntent runtimeErrorText

/- ===================================================================
   Message router (`registerCommands` in `src/slack/commands.js`), from
   the point where the NLU intent is available.
   =================================================================== -/

/-- The fields of a parsed intent the routing block reads. -/
structure RoutedIntent where
  action : String
  confidence : ℚ
  missing_info : List String
  deriving DecidableEq, Repr

/-- What the router does with a message: send the generic low-confidence
clarification, ask one targeted question about a missing slot, dispatch
to the handler of an action, or send the default fallback reply. -/
inductive RouterReply where
  | lowConfidence : RouterReply
  | askMissing (slot : String) : RouterReply
  | runHandler (action : String) : RouterReply
  | unknownFallback : RouterReply
  deriving DecidableEq, Repr

/-- The action tags with a case in the router switch. -/
def knownActions : List String :=
  ["schedule_followup", "assign_followup", "log_touchpoint",
   "check_status", "list_overdue", "list_by_status",
   "list_not_contacted", "test_monday", "add_investor", "contact_info",
   "count_investors"]

/-- The switch statement at the end of the router. -/
def switchAction (action : String) : RouterReply :=
  if action ∈ knownActions then .runHandler action
  else .unknownFallback

/-- Translation of the routing block: confidence below 0.5 or the unknown
action short-circuit to the generic clarification; a non-empty
missing-info list is consulted only at its FIRST element, and only the
three recognized slot names produce a targeted question — any other
first element falls through to the switch. -/
def routeParsedIntent (i : RoutedIntent) : RouterReply :=
  if i.confidence < 1/2 ∨ i.action = "unknown" then .lowConfidence
  else
    match i.missing_info with
    | m :: _ =>
      if m = "investorName" then .askMissing m
      else if m = "assignee" then .askMissing m
      else if m = "date" then .askMissing m
      else switchAction i.action
    | [] => switchAction i.action

/-- The slot-priority order asserted by the specification (investor name,
then assignee, then date); stated here to formalise the claim, the source
has no counterpart of it. -/
def prioritySlot (missing : List String) : Option String :=
  if missing.contains "investorName" then some "investorName"
  else if missing.contains "assignee" then some "assignee"
  else if missing.contains "date" then some "date"
  else none

/- ===================================================================
   Derived definitions used to state the claims.
   =================================================================== -/

/-- The resolver as deployed: `resolveInvestor` calling the real
`getActiveInvestors`.  The query function is total (its internal catch
returns an empty list), so the value reaching the resolver is always a
non-exceptional list and the resolver catch branch receives the fetch
outcome only through it. -/
def resolveInvestorLive (parseItem : ρ → Investor)
    (fetched : Except String (List ρ)) (fuse : FuseSearch Investor)
    (searchName : String) : ResolveResult :=
  resolveInvestor fuse (.ok (getActiveInvestors parseItem fetched))
    searchName

/-- A fuzzy search returning no hits, as Fuse.js does when nothing falls
inside its 0.4 threshold. -/
def emptyFuse : FuseSearch Investor := fun _ _ => []

/-- A concrete investor record for witnesses and counterexamples. -/
def sampleInvestor : Investor :=
  ⟨"101", "Wyatt Heavy", "🔥 Hot Lead", "w@x.co", "555", "Fund I"⟩

/-- String-valued test on a property read, used to state what the intent
validation does and does not guarantee about the `action` field. -/
def isJsString : Option JsVal → Bool
  | some (.jstr _) => true
  | _ => false

/-- A markdown fence around a reply body, the defensive-formatting case
the intent parser strips. -/
def fenceWrap (s : String) : String :=
  ⟨("```json\n".data ++ s.data) ++ "\n```".data⟩

/-- One concrete behaviour of `JSON.parse`: the text
`{"action": 7}` (braces spelled out) parses to the object with the
single numeric field `action`. -/
def sampleParse : String → Option JsVal :=
  fun s =>
    if s = "\x7b\"action\": 7\x7d" then some (.jobj [("action", .jnum 7)])
    else none

/- ===================================================================
   Theorems.
   =================================================================== -/

/-- Membership in a twice-mapped list comes from a source element. -/
theorem mem_map_two {f g : BoardItem → BoardItem} {b : Board}
    {it : BoardItem} (hmem : it ∈ (b.map g).map f) :
    ∃ x ∈ b, it = f (g x) := by
  simp only [List.mem_map] at hmem
  obtain ⟨y, ⟨x, hx, rfl⟩, rfl⟩ := hmem
  exact ⟨x, hx, rfl⟩

/-- Membership in a thrice-mapped list comes from a source element. -/
theorem mem_map_three {f g h : BoardItem → BoardItem} {b : Board}
    {it : BoardItem} (hmem : it ∈ ((b.map h).map g).map f) :
    ∃ x ∈ b, it = f (g (h x)) := by
  simp only [List.mem_map] at hmem
  obtain ⟨y, ⟨z, ⟨x, hx, rfl⟩, rfl⟩, rfl⟩ := hmem
  exact ⟨x, hx, rfl⟩

/-- Decomposition of the going-cold strip: when the marker is present,
the original name is the marker glyph, then a whitespace run, then
exactly the stripped name. -/
theorem removeFlagPrefix_decomp (s : String) (h : flagPresent s = true) :
    ∃ pad rest, s.data = redCircle :: (pad ++ rest) ∧
      (∀ c ∈ pad, isJsWs c = true) ∧ (removeFlagPrefix s).data = rest := by
  cases hd : s.data with
  | nil => exfalso; rw [flagPresent, hd] at h; exact Bool.noConfusion h
  | cons c t =>
    have hc : c = redCircle := by
      rw [flagPresent, hd] at h
      exact of_decide_eq_true h
    refine ⟨t.takeWhile isJsWs, t.dropWhile isJsWs, ?_, ?_, ?_⟩
    · rw [hc, List.takeWhile_append_dropWhile]
    · intro x hx
      exact List.mem_takeWhile_imp hx
    · rw [removeFlagPrefix, if_pos h, hd]
      rfl

/-- Expansion of the touchpoint handler when the contact write succeeds
and the status has a cadence tier. -/
theorem handleLogTouchpoint_expand (api : MutationApi) (inv : Investor)
    (today : ℤ) (b : Board) (tier : CadenceTier)
    (htier : cadenceLookup inv.status = some tier)
    (hc : api.contactOk = true) :
    handleLogTouchpoint api inv today b =
      if flagPresent inv.name then
        removeGoingColdFlag api.nameOk inv.id inv.name
          (applyNextFollowUp api.followOk inv.id (today + tier.autoNextDays)
            (applyLastContact api.contactOk inv.id today b))
      else
        applyNextFollowUp api.followOk inv.id (today + tier.autoNextDays)
          (applyLastContact api.contactOk inv.id today b) := by
  simp only [handleLogTouchpoint, htier, hc, Bool.true_eq_false, if_false]

/-- C1: for an investor whose status label has a cadence tier, a logged
touchpoint (with the board writes succeeding) leaves every board item
carrying the investor id with last contact set to today, next follow-up
set to today plus the tier auto-reschedule offset, and — when the
resolved display name carried the leading red-circle going-cold marker —
the name rewritten with that marker (and the whitespace after it)
removed. -/
theorem claim_C1 (api : MutationApi) (inv : Investor) (today : ℤ)
    (b : Board) (tier : CadenceTier)
    (htier : cadenceLookup inv.status = some tier)
    (hc : api.contactOk = true) (hf : api.followOk = true)
    (hn : api.nameOk = true)
    (it : BoardItem) (hmem : it ∈ handleLogTouchpoint api inv today b)
    (hid : it.id = inv.id) :
    it.lastContact = some today ∧
    it.nextFollowUp = some (today + tier.autoNextDays) ∧
    (flagPresent inv.name = true →
      it.name = removeFlagPrefix inv.name ∧
      ∃ pad rest, inv.name.data = redCircle :: (pad ++ rest) ∧
        (∀ c ∈ pad, isJsWs c = true) ∧ it.name.data = rest) := by
  rw [handleLogTouchpoint_expand api inv today b tier htier hc] at hmem
  cases hfp : flagPresent inv.name with
  | false =>
    simp only [hfp, Bool.false_eq_true, if_false] at hmem
    rw [applyNextFollowUp, applyLastContact, hf, hc] at hmem
    simp only [if_true] at hmem
    obtain ⟨x0, hx0, hit⟩ := mem_map_two hmem
    by_cases hx : x0.id = inv.id
    · rw [if_pos hx, if_pos hx] at hit
      subst hit
      refine ⟨rfl, rfl, ?_⟩
      intro hcontra
      exact Bool.noConfusion hcontra
    · exfalso
      rw [if_neg hx, if_neg hx] at hit
      subst hit
      exact hx hid
  | true =>
    simp only [hfp, if_true] at hmem
    rw [removeGoingColdFlag, if_pos hfp] at hmem
    rw [applyItemName, applyNextFollowUp, applyLastContact, hn, hf, hc]
      at hmem
    simp only [if_true] at hmem
    obtain ⟨x0, hx0, hit⟩ := mem_map_three hmem
    by_cases hx : x0.id = inv.id
    · rw [if_pos hx, if_pos hx, if_pos hx] at hit
      subst hit
      refine ⟨rfl, rfl, ?_⟩
      intro _
      exact ⟨rfl, removeFlagPrefix_decomp inv.name hfp⟩
    · exfalso
      rw [if_neg hx, if_neg hx, if_neg hx] at hit
      subst hit
      exact hx hid

/-- Witness for C1 at a concrete flagged hot lead: the tier exists, the
updated item is in the handler output, and the claim yields the two dates
and the cleaned name. -/
theorem claim_C1_witness :
    cadenceLookup "🔥 Hot Lead" = some ⟨1, 3, 4, 1⟩ ∧
    (⟨"101", "Wyatt Heavy", some 100, some 101⟩ : BoardItem) ∈
      handleLogTouchpoint ⟨true, true, true⟩
        ⟨"101", "🔴 Wyatt Heavy", "🔥 Hot Lead", "", "", ""⟩ 100
        [⟨"101", "🔴 Wyatt Heavy", none, none⟩] ∧
    ((⟨"101", "Wyatt Heavy", some 100, some 101⟩ : BoardItem).lastContact =
        some 100 ∧
      (⟨"101", "Wyatt Heavy", some 100, some 101⟩ : BoardItem).nextFollowUp =
        some (100 + (⟨1, 3, 4, 1⟩ : CadenceTier).autoNextDays) ∧
      (flagPresent (⟨"101", "🔴 Wyatt Heavy", "🔥 Hot Lead", "", "", ""⟩ :
            Investor).name = true →
        (⟨"101", "Wyatt Heavy", some 100, some 101⟩ : BoardItem).name =
          removeFlagPrefix (⟨"101", "🔴 Wyatt Heavy", "🔥 Hot Lead", "", "",
            ""⟩ : Investor).name ∧
        ∃ pad rest,
          (⟨"101", "🔴 Wyatt Heavy", "🔥 Hot Lead", "", "", ""⟩ :
              Investor).name.data = redCircle :: (pad ++ rest) ∧
            (∀ c ∈ pad, isJsWs c = true) ∧
            (⟨"101", "Wyatt Heavy", some 100, some 101⟩ :
                BoardItem).name.data = rest)) :=
  ⟨by decide, by decide,
    claim_C1 ⟨true, true, true⟩
      ⟨"101", "🔴 Wyatt Heavy", "🔥 Hot Lead", "", "", ""⟩ 100
      [⟨"101", "🔴 Wyatt Heavy", none, none⟩] ⟨1, 3, 4, 1⟩ (by decide) rfl
      rfl rfl ⟨"101", "Wyatt Heavy", some 100, some 101⟩ (by decide) rfl⟩

/-- Every branch of the per-reminder processing — unresolvable record,
notification attempted, notification threw — removes the reminder by id. -/
theorem processDueReminder_eq (investors : List Investor)
    (sendOk : Reminder → Bool) (st : ReminderStore) (r : Reminder) :
    processDueReminder investors sendOk st r = removeReminder r.id st := by
  rw [processDueReminder]
  cases findReminderInvestor investors r with
  | none => rfl
  | some inv =>
    by_cases hs : sendOk r = true
    · rw [if_pos hs]
    · rw [if_neg hs]

/-- A tick only removes stored reminders. -/
theorem mem_tick_subset (investors : List Investor)
    (sendOk : Reminder → Bool) :
    ∀ (l : List Reminder) (st : ReminderStore) (x : Reminder),
      x ∈ l.foldl (processDueReminder investors sendOk) st → x ∈ st := by
  intro l
  induction l with
  | nil => intro st x hx; exact hx
  | cons a l ih =>
    intro st x hx
    have hx2 := ih _ x hx
    rw [processDueReminder_eq] at hx2
    exact (List.mem_filter.1 hx2).1

/-- Once some processed reminder carries an id, no reminder with that id
survives the fold. -/
theorem foldl_removes_id (investors : List Investor)
    (sendOk : Reminder → Bool) :
    ∀ (l : List Reminder) (st : ReminderStore) (id : String),
      (∃ r ∈ l, r.id = id) →
      ∀ x ∈ l.foldl (processDueReminder investors sendOk) st, ¬ x.id = id := by
  intro l
  induction l with
  | nil =>
    intro st id hex x hx
    obtain ⟨r, hr, _⟩ := hex
    exact absurd hr (List.not_mem_nil r)
  | cons a l ih =>
    intro st id hex x hx
    obtain ⟨r, hr, hrid⟩ := hex
    rcases List.mem_cons.1 hr with heq | hmem
    · subst heq
      have hsub : x ∈ processDueReminder investors sendOk st r :=
        mem_tick_subset investors sendOk l _ x hx
      rw [processDueReminder_eq] at hsub
      have hne := (List.mem_filter.1 hsub).2
      rw [hrid] at hne
      exact of_decide_eq_true hne
    · exact ih _ id ⟨r, hmem, hrid⟩ x hx

/-- C4: a reminder whose fire time is at or before now at the start of a
checker tick is in the due set of that tick and absent from the store the
tick leaves behind, for every possible record list and every possible
notification outcome. -/
theorem claim_C4 (now : ℤ) (investors : List Investor)
    (sendOk : Reminder → Bool) (store : ReminderStore) (r : Reminder)
    (hmem : r ∈ store) (hdue : r.scheduledAt ≤ now) :
    r ∈ getDueReminders now store ∧
    r ∉ checkerTick now investors sendOk store := by
  constructor
  · rw [getDueReminders]
    exact List.mem_filter.2 ⟨hmem, decide_eq_true hdue⟩
  · intro hin
    rw [checkerTick] at hin
    have hr : r ∈ getDueReminders now store := by
      rw [getDueReminders]
      exact List.mem_filter.2 ⟨hmem, decide_eq_true hdue⟩
    exact foldl_removes_id investors sendOk (getDueReminders now store)
      store r.id ⟨r, hr, rfl⟩ r hin rfl

/-- Witness for C4: a concrete overdue reminder is due and is gone after
the tick, both when the record list resolves it and when it does not. -/
theorem claim_C4_witness :
    ((⟨"a1", "101", "Wyatt Heavy", 5, none⟩ : Reminder) ∈
        getDueReminders 10 [⟨"a1", "101", "Wyatt Heavy", 5, none⟩] ∧
      (⟨"a1", "101", "Wyatt Heavy", 5, none⟩ : Reminder) ∉
        checkerTick 10 [] (fun _ => true)
          [⟨"a1", "101", "Wyatt Heavy", 5, none⟩]) ∧
    ((⟨"a1", "101", "Wyatt Heavy", 5, none⟩ : Reminder) ∈
        getDueReminders 10 [⟨"a1", "101", "Wyatt Heavy", 5, none⟩] ∧
      (⟨"a1", "101", "Wyatt Heavy", 5, none⟩ : Reminder) ∉
        checkerTick 10 [sampleInvestor] (fun _ => false)
          [⟨"a1", "101", "Wyatt Heavy", 5, none⟩]) :=
  ⟨claim_C4 10 [] (fun _ => true) [⟨"a1", "101", "Wyatt Heavy", 5, none⟩]
      ⟨"a1", "101", "Wyatt Heavy", 5, none⟩ (by decide) (by decide),
    claim_C4 10 [sampleInvestor] (fun _ => false)
      [⟨"a1", "101", "Wyatt Heavy", 5, none⟩]
      ⟨"a1", "101", "Wyatt Heavy", 5, none⟩ (by decide) (by decide)⟩

/-- C10: every public board query function is total over remote failures
— a failed fetch yields the empty list, indistinguishable from a
successful fetch of an empty board. -/
theorem claim_C10 {ρ : Type} (e : String) (parseItem : ρ → Investor)
    (parseRM : ρ → RMItem) (fuse : FuseSearch RMItem) (name : String) :
    getActiveInvestors parseItem (.error e) = [] ∧
    getAllInvestors parseItem (.error e) = [] ∧
    getInvestorByName parseItem (.error e) name = [] ∧
    getRMBoardItems parseRM (.error e) = [] ∧
    searchRMByInvestorName parseRM (.error e) fuse name = [] ∧
    getActiveInvestors parseItem (.error e) =
      getActiveInvestors parseItem (.ok []) ∧
    getAllInvestors parseItem (.error e) =
      getAllInvestors parseItem (.ok []) ∧
    getInvestorByName parseItem (.error e) name =
      getInvestorByName parseItem (.ok []) name ∧
    getRMBoardItems parseRM (.error e) =
      getRMBoardItems parseRM (.ok []) ∧
    searchRMByInvestorName parseRM (.error e) fuse name =
      searchRMByInvestorName parseRM (.ok []) fuse name :=
  ⟨rfl, rfl, rfl, rfl, rfl, rfl, rfl, rfl, rfl, rfl⟩

/-- C7 (amended): the resolver surfaces the explicit no-records error on
an empty candidate list, but a failed network fetch produces the very
same no-records error — the query layer swallows the exception into an
empty list — and the distinct system-unavailable reply is unreachable
through the deployed composition. -/
theorem claim_C7 {ρ : Type} (parseItem : ρ → Investor)
    (fuse : FuseSearch Investor) (name : String) (e : String) :
    resolveInvestorLive parseItem (.ok ([] : List ρ)) fuse name =
      .failed .noActiveInvestors ∧
    resolveInvestorLive parseItem (.error e) fuse name =
      .failed .noActiveInvestors ∧
    (∀ fetched : Except String (List ρ),
      resolveInvestorLive parseItem fetched fuse name ≠
        .failed .mondayUnreachable) := by
  refine ⟨rfl, rfl, ?_⟩
  intro fetched h
  rw [resolveInvestorLive, resolveInvestor] at h
  by_cases hemp : (getActiveInvestors parseItem fetched).isEmpty = true
  · rw [if_pos hemp] at h
    exact ResolveError.noConfusion (ResolveResult.failed.inj h)
  · rw [if_neg hemp] at h
    cases hfb : findBestMatch Investor.name fuse
        (stripLeadingPreposition name) (getActiveInvestors parseItem fetched)
      with
    | none =>
      simp only [hfb] at h
      exact ResolveError.noConfusion (ResolveResult.failed.inj h)
    | some r =>
      simp only [hfb] at h
      by_cases hs : r.score > 7/20
      · rw [if_pos hs] at h
        exact ResolveError.noConfusion (ResolveResult.failed.inj h)
      · rw [if_neg hs] at h
        exact ResolveResult.noConfusion h

/-- Witness for C7 at concrete inputs: both the empty board and the
failed fetch produce the no-records reply, and the concrete failed fetch
does not produce the system-unavailable reply. -/
theorem claim_C7_witness :
    resolveInvestorLive (fun _ : Unit => sampleInvestor) (.ok []) emptyFuse
        "Wyatt" = .failed .noActiveInvestors ∧
    resolveInvestorLive (fun _ : Unit => sampleInvestor) (.error "boom")
        emptyFuse "Wyatt" = .failed .noActiveInvestors ∧
    resolveInvestorLive (fun _ : Unit => sampleInvestor) (.error "boom")
        emptyFuse "Wyatt" ≠ .failed .mondayUnreachable :=
  ⟨(claim_C7 (fun _ : Unit => sampleInvestor) emptyFuse "Wyatt" "boom").1,
    (claim_C7 (fun _ : Unit => sampleInvestor) emptyFuse "Wyatt" "boom").2.1,
    (claim_C7 (fun _ : Unit => sampleInvestor) emptyFuse "Wyatt"
        "boom").2.2 (.error "boom")⟩

/-- Counterexample for C7 as stated: with the board unreachable (the
fetch throws), resolution replies with the no-records error, not with the
distinct system-unavailable error the claim requires for network
failures. -/
theorem claim_C7_counterexample :
    resolveInvestorLive (fun _ : Unit => sampleInvestor)
        (.error "ECONNREFUSED") emptyFuse "Wyatt" =
      .failed .noActiveInvestors ∧
    ResolveError.noActiveInvestors ≠ ResolveError.mondayUnreachable := by
  exact ⟨rfl, by decide⟩

/-- Inversion of a successful `findBestMatch`: the accepted result is the
head of the fuzzy hit list, carries its score, and that score passed the
0.4 cut-off. -/
theorem findBestMatch_some {α : Type} (getName : α → String)
    (fuse : FuseSearch α) (searchName : String) (records : List α)
    (r : MatchResult α)
    (hfb : findBestMatch getName fuse searchName records = some r) :
    ∃ top rest,
      fuse (prepareRecords getName records) searchName = top :: rest ∧
      r.minv = top.item.item ∧ r.score = top.score ∧ ¬ top.score > 2/5 := by
  rw [findBestMatch] at hfb
  by_cases hcond : (searchName.data.isEmpty || records.isEmpty) = true
  · rw [if_pos hcond] at hfb
    exact Option.noConfusion hfb
  · rw [if_neg hcond] at hfb
    cases hfuse : fuse (prepareRecords getName records) searchName with
    | nil =>
      simp only [hfuse] at hfb
      exact Option.noConfusion hfb
    | cons top rest =>
      simp only [hfuse] at hfb
      by_cases hts : top.score > 2/5
      · rw [if_pos hts] at hfb
        exact Option.noConfusion hfb
      · rw [if_neg hts] at hfb
        cases Option.some.inj hfb
        exact ⟨top, rest, rfl, rfl, rfl, hts⟩

/-- Expansion of the resolver when the fuzzy matcher found nothing. -/
theorem resolveInvestor_ok_none (fuse : FuseSearch Investor)
    (investors : List Investor) (searchName : String)
    (hne : investors.isEmpty = false)
    (hfb : findBestMatch Investor.name fuse
      (stripLeadingPreposition searchName) investors = none) :
    resolveInvestor fuse (.ok investors) searchName =
      .failed (.noMatchFound (stripLeadingPreposition searchName)) := by
  simp only [resolveInvestor, hne, Bool.false_eq_true, if_false, hfb]

/-- Expansion of the resolver when the fuzzy matcher found a best hit. -/
theorem resolveInvestor_ok_some (fuse : FuseSearch Investor)
    (investors : List Investor) (searchName : String)
    (r : MatchResult Investor) (hne : investors.isEmpty = false)
    (hfb : findBestMatch Investor.name fuse
      (stripLeadingPreposition searchName) investors = some r) :
    resolveInvestor fuse (.ok investors) searchName =
      if r.score > 7/20 then
        .failed (.noCloseMatch (stripLeadingPreposition searchName)
          ((investors.take 5).map (fun i => i.name)))
      else .found r.minv := by
  simp only [resolveInvestor, hne, Bool.false_eq_true, if_false, hfb]

/-- C2 (amended): resolution never returns a match whose fuzzy distance
exceeds 0.35 — an accepted investor is the head of the fuzzy hit list
with its score at or below 0.35; when every hit scores above 0.35 the
resolver fails; and the failure reply surfaces (up to five) candidate
record names exactly when the fuzzy search produced an over-threshold
best hit, the no-hit failure naming no candidates. -/
theorem claim_C2 (fuse : FuseSearch Investor) (investors : List Investor)
    (searchName : String) (hne : investors.isEmpty = false) :
    (∀ inv, resolveInvestor fuse (.ok investors) searchName = .found inv →
      ∃ r, findBestMatch Investor.name fuse
          (stripLeadingPreposition searchName) investors = some r ∧
        inv = r.minv ∧ r.score ≤ 7/20 ∧
        ∃ top rest,
          fuse (prepareRecords Investor.name investors)
              (stripLeadingPreposition searchName) = top :: rest ∧
          r.minv = top.item.item ∧ r.score = top.score) ∧
    ((∀ hit ∈ fuse (prepareRecords Investor.name investors)
          (stripLeadingPreposition searchName), 7/20 < hit.score) →
      ∃ err, resolveInvestor fuse (.ok investors) searchName =
        .failed err) ∧
    (∀ r, findBestMatch Investor.name fuse
        (stripLeadingPreposition searchName) investors = some r →
      7/20 < r.score →
      resolveInvestor fuse (.ok investors) searchName =
        .failed (.noCloseMatch (stripLeadingPreposition searchName)
          ((investors.take 5).map (fun i => i.name)))) := by
  refine ⟨?_, ?_, ?_⟩
  · intro inv h
    rcases hfb : findBestMatch Investor.name fuse
        (stripLeadingPreposition searchName) investors with _ | r
    · rw [resolveInvestor_ok_none fuse investors searchName hne hfb] at h
      exact ResolveResult.noConfusion h
    · rw [resolveInvestor_ok_some fuse investors searchName r hne hfb] at h
      by_cases hs : r.score > 7/20
      · rw [if_pos hs] at h
        exact ResolveResult.noConfusion h
      · rw [if_neg hs] at h
        obtain ⟨top, rest, hfuse, hm, hsc, _⟩ :=
          findBestMatch_some Investor.name fuse
            (stripLeadingPreposition searchName) investors r hfb
        exact ⟨r, rfl, (ResolveResult.found.inj h).symm, le_of_not_lt hs,
          top, rest, hfuse, hm, hsc⟩
  · intro hall
    rcases hfb : findBestMatch Investor.name fuse
        (stripLeadingPreposition searchName) investors with _ | r
    · exact ⟨_, resolveInvestor_ok_none fuse investors searchName hne hfb⟩
    · obtain ⟨top, rest, hfuse, _, hsc, _⟩ :=
        findBestMatch_some Investor.name fuse
          (stripLeadingPreposition searchName) investors r hfb
      have htop : r.score > 7/20 := by
        rw [hsc]
        exact hall top (hfuse ▸ List.mem_cons_self top rest)
      refine ⟨.noCloseMatch (stripLeadingPreposition searchName)
        ((investors.take 5).map (fun i => i.name)), ?_⟩
      rw [resolveInvestor_ok_some fuse investors searchName r hne hfb,
        if_pos htop]
  · intro r hfb hgt
    rw [resolveInvestor_ok_some fuse investors searchName r hne hfb,
      if_pos hgt]

/-- Witness for C2: with a single over-threshold fuzzy hit (score 0.38)
the resolver fails rather than matching, and with no hits it fails as
well. -/
theorem claim_C2_witness :
    (∃ err,
      resolveInvestor
          (fun _ _ => [⟨⟨sampleInvestor, "Wyatt Heavy"⟩, 19/50⟩])
          (.ok [sampleInvestor]) "Zeb" = .failed err) ∧
    (∃ err,
      resolveInvestor emptyFuse (.ok [sampleInvestor]) "Zeb" =
        .failed err) :=
  ⟨((claim_C2 (fun _ _ => [⟨⟨sampleInvestor, "Wyatt Heavy"⟩, 19/50⟩])
        [sampleInvestor] "Zeb" (by decide)).2.1 (by
          intro hit hmem
          rw [List.mem_singleton] at hmem
          rw [hmem]
          norm_num)),
    ((claim_C2 emptyFuse [sampleInvestor] "Zeb" (by decide)).2.1 (by
          intro hit hmem
          exact absurd hmem (List.not_mem_nil hit)))⟩

/-- Counterexample for C2 as stated: with a non-empty candidate list and
a fuzzy search returning no hit at all (the claim antecedent — no
candidate at or below 0.35 — holds vacuously), the resolver fails with
the spelling-check reply, which surfaces no candidate names. -/
theorem claim_C2_counterexample :
    resolveInvestor emptyFuse (.ok [sampleInvestor]) "Zeb" =
      .failed (.noMatchFound "Zeb") ∧
    surfacedNames (.noMatchFound "Zeb") = [] ∧
    ¬ ("Wyatt Heavy" ∈ surfacedNames (.noMatchFound "Zeb")) := by
  refine ⟨by decide, rfl, ?_⟩
  intro h
  exact absurd h (List.not_mem_nil _)

/-- C9 (amended): a search name beginning with a leading preposition
resolves exactly like the remainder after that preposition and its
whitespace, provided the remainder does not itself begin with another
leading preposition (the resolver strips only one occurrence per call). -/
theorem claim_C9 (fuse : FuseSearch Investor)
    (fetched : Except String (List Investor)) (searchName rest : String)
    (h1 : stripPrepOnce searchName = some rest)
    (h2 : stripPrepOnce rest = none) :
    resolveInvestor fuse fetched searchName =
      resolveInvestor fuse fetched rest := by
  have hclean : stripLeadingPreposition searchName =
      stripLeadingPreposition rest := by
    rw [stripLeadingPreposition, stripLeadingPreposition, h1, h2]
  rw [resolveInvestor.eq_def, resolveInvestor.eq_def, hclean]

/-- Witness for C9 at a concrete input: "with Wyatt Heavy" resolves
identically to "Wyatt Heavy". -/
theorem claim_C9_witness :
    stripPrepOnce "with Wyatt Heavy" = some "Wyatt Heavy" ∧
    stripPrepOnce "Wyatt Heavy" = none ∧
    resolveInvestor emptyFuse (.ok [sampleInvestor]) "with Wyatt Heavy" =
      resolveInvestor emptyFuse (.ok [sampleInvestor]) "Wyatt Heavy" :=
  ⟨by decide, by decide,
    claim_C9 emptyFuse (.ok [sampleInvestor]) "with Wyatt Heavy"
      "Wyatt Heavy" (by decide) (by decide)⟩

/-- Counterexample for C9 as stated: "with for Zeb" begins with the
leading preposition "with", yet resolving it differs from resolving
"for Zeb" (the name with that preposition removed), because the single
strip leaves "for Zeb" as the search string on the left while the right
resolution strips again down to "Zeb"; the two failure replies quote
different names. -/
theorem claim_C9_counterexample :
    resolveInvestor emptyFuse (.ok [sampleInvestor]) "with for Zeb" =
      .failed (.noMatchFound "for Zeb") ∧
    resolveInvestor emptyFuse (.ok [sampleInvestor]) "for Zeb" =
      .failed (.noMatchFound "Zeb") ∧
    resolveInvestor emptyFuse (.ok [sampleInvestor]) "with for Zeb" ≠
      resolveInvestor emptyFuse (.ok [sampleInvestor]) "for Zeb" := by
  refine ⟨by decide, by decide, ?_⟩
  intro h
  rw [show resolveInvestor emptyFuse (.ok [sampleInvestor]) "with for Zeb" =
      .failed (.noMatchFound "for Zeb") from by decide,
    show resolveInvestor emptyFuse (.ok [sampleInvestor]) "for Zeb" =
      .failed (.noMatchFound "Zeb") from by decide] at h
  exact absurd (ResolveError.noMatchFound.inj (ResolveResult.failed.inj h))
    (by decide)

/-- Expansion of the router on a passing confidence gate and a non-empty
missing-slot list. -/
theorem routeParsedIntent_cons (i : RoutedIntent) (m : String)
    (rest : List String)
    (hcond : ¬ (i.confidence < 1/2 ∨ i.action = "unknown"))
    (hm : i.missing_info = m :: rest) :
    routeParsedIntent i =
      if m = "investorName" then .askMissing m
      else if m = "assignee" then .askMissing m
      else if m = "date" then .askMissing m
      else switchAction i.action := by
  rw [routeParsedIntent, if_neg hcond, hm]

/-- C8 (amended): with confidence at least 0.5, a known action, and a
non-empty missing-slot list, the router asks exactly one targeted
question about the FIRST listed slot when that slot is one of
investorName, assignee, date — no handler runs in that case — but when
the first listed slot is any other name the router falls through and
invokes the action handler despite the missing information; no
priority reordering of the list takes place. -/
theorem claim_C8 (i : RoutedIntent) (hconf : ¬ i.confidence < 1/2)
    (hknown : i.action ∈ knownActions) :
    (∀ m rest, i.missing_info = m :: rest →
      (m = "investorName" ∨ m = "assignee" ∨ m = "date") →
      routeParsedIntent i = .askMissing m) ∧
    (∀ m rest, i.missing_info = m :: rest →
      ¬ m = "investorName" → ¬ m = "assignee" → ¬ m = "date" →
      routeParsedIntent i = .runHandler i.action) := by
  have hunk : ¬ i.action = "unknown" := by
    intro h
    rw [h] at hknown
    exact absurd hknown (by decide)
  have hcond : ¬ (i.confidence < 1/2 ∨ i.action = "unknown") :=
    not_or.mpr ⟨hconf, hunk⟩
  constructor
  · intro m rest hm hslot
    rw [routeParsedIntent_cons i m rest hcond hm]
    rcases hslot with h | h | h
    · rw [if_pos h]
    · rw [h, if_neg (by decide : ¬ ("assignee" : String) = "investorName"),
        if_pos rfl]
    · rw [h, if_neg (by decide : ¬ ("date" : String) = "investorName"),
        if_neg (by decide : ¬ ("date" : String) = "assignee"), if_pos rfl]
  · intro m rest hm hn1 hn2 hn3
    rw [routeParsedIntent_cons i m rest hcond hm, if_neg hn1, if_neg hn2,
      if_neg hn3, switchAction, if_pos hknown]

/-- Witness for C8: a schedule intent at confidence 0.9 missing only the
investor name gets the targeted investor-name question, and one whose
first missing slot is unrecognized runs the handler. -/
theorem claim_C8_witness :
    ¬ (⟨"schedule_followup", 9/10, ["investorName"]⟩ :
        RoutedIntent).confidence < 1/2 ∧
    ("schedule_followup" ∈ knownActions) ∧
    routeParsedIntent ⟨"schedule_followup", 9/10, ["investorName"]⟩ =
      .askMissing "investorName" ∧
    routeParsedIntent ⟨"schedule_followup", 9/10, ["contactField"]⟩ =
      .runHandler "schedule_followup" :=
  ⟨by norm_num, by decide,
    (claim_C8 ⟨"schedule_followup", 9/10, ["investorName"]⟩ (by norm_num)
        (by decide)).1 "investorName" [] rfl (Or.inl rfl),
    (claim_C8 ⟨"schedule_followup", 9/10, ["contactField"]⟩ (by norm_num)
        (by decide)).2 "contactField" [] rfl (by decide) (by decide)
      (by decide)⟩

/-- Counterexample for C8 as stated: the router consults only the first
element of the missing-slot list, so with missing slots listed as
[date, investorName] it asks about the date even though the claimed
priority selects the investor name; and with an unrecognized first slot
it invokes the handler instead of asking anything. -/
theorem claim_C8_counterexample :
    routeParsedIntent ⟨"schedule_followup", 9/10,
        ["date", "investorName"]⟩ = .askMissing "date" ∧
    prioritySlot ["date", "investorName"] = some "investorName" ∧
    RouterReply.askMissing "date" ≠ RouterReply.askMissing "investorName" ∧
    routeParsedIntent ⟨"schedule_followup", 9/10, ["contactField"]⟩ =
      .runHandler "schedule_followup" := by
  have hcond : ¬ ((9 : ℚ)/10 < 1/2 ∨ ("schedule_followup" : String) =
      "unknown") :=
    not_or.mpr ⟨by norm_num, by decide⟩
  refine ⟨?_, by decide, ?_, ?_⟩
  · rw [routeParsedIntent_cons ⟨"schedule_followup", 9/10,
      ["date", "investorName"]⟩ "date" ["investorName"] hcond rfl]
    rfl
  · intro h
    exact absurd (RouterReply.askMissing.inj h) (by decide)
  · rw [routeParsedIntent_cons ⟨"schedule_followup", 9/10,
      ["contactField"]⟩ "contactField" [] hcond rfl]
    rfl

/-- A transient status is never an OK status. -/
theorem isRetryStatus_not_ok (s : ℕ) (h : isRetryStatus s = true) :
    isOkStatus s = false := by
  rw [isRetryStatus] at h
  simp only [Bool.or_eq_true, decide_eq_true_eq] at h
  rcases h with h1 | h1
  · subst h1
    rfl
  · have hnot : ¬ s < 300 := by omega
    simp [isOkStatus, hnot]

/-- A rate-limit signal needs a non-empty error list. -/
theorem hasRateLimitSignal_ne_nil (errors : List GqlError)
    (h : hasRateLimitSignal errors = true) : errors.isEmpty = false := by
  cases errors with
  | nil => exact absurd h (by decide)
  | cons a l => rfl

/-- A retryable first attempt is classified as a retryable throw. -/
theorem retryable_classify_zero {α : Type} (a : ApiAttempt α)
    (h : retryableAttempt a = true) :
    ∃ e, classifyAttempt 0 a = .error (true, e) := by
  cases a with
  | transportThrow => exact absurd h (by simp [retryableAttempt])
  | resp status body =>
    cases body with
    | badJson =>
      simp only [retryableAttempt] at h
      exact ⟨.httpError status, by simp [classifyAttempt, h]⟩
    | payload errors errorMessage value =>
      simp only [retryableAttempt] at h
      by_cases hrs : isRetryStatus status = true
      · exact ⟨.httpError status, by simp [classifyAttempt, hrs]⟩
      · rw [Bool.not_eq_true] at hrs
        rw [hrs, Bool.false_or] at h
        simp only [Bool.and_eq_true] at h
        obtain ⟨hok, hrl⟩ := h
        exact ⟨.graphqlErrors true,
          by simp [classifyAttempt, hrs, hok, hrl,
            hasRateLimitSignal_ne_nil errors hrl]⟩

/-- A retryable response arriving on the retry attempt is surfaced as a
plain (non-retryable) throw. -/
theorem retryable_classify_one {α : Type} (a : ApiAttempt α)
    (h : retryableAttempt a = true) :
    ∃ e, classifyAttempt 1 a = .error (false, e) := by
  cases a with
  | transportThrow => exact absurd h (by simp [retryableAttempt])
  | resp status body =>
    cases body with
    | badJson =>
      simp only [retryableAttempt] at h
      exact ⟨.httpError status,
        by simp [classifyAttempt, h, isRetryStatus_not_ok status h]⟩
    | payload errors errorMessage value =>
      simp only [retryableAttempt] at h
      by_cases hrs : isRetryStatus status = true
      · exact ⟨.httpError status,
          by simp [classifyAttempt, hrs, isRetryStatus_not_ok status hrs]⟩
      · rw [Bool.not_eq_true] at hrs
        rw [hrs, Bool.false_or] at h
        simp only [Bool.and_eq_true] at h
        obtain ⟨hok, hrl⟩ := h
        exact ⟨.graphqlErrors (hasRateLimitSignal errors),
          by simp [classifyAttempt, hrs, hok, hrl,
            hasRateLimitSignal_ne_nil errors hrl]⟩

/-- A first attempt outside the retryable class is never classified as
retryable. -/
theorem nonretryable_classify_zero {α : Type} (a : ApiAttempt α)
    (h : retryableAttempt a = false) (re : Bool) (e : ApiFailure)
    (hcl : classifyAttempt 0 a = .error (re, e)) : re = false := by
  cases a with
  | transportThrow =>
    rw [classifyAttempt] at hcl
    exact (congrArg Prod.fst (Except.error.inj hcl)).symm
  | resp status body =>
    cases body with
    | badJson =>
      simp only [retryableAttempt] at h
      rw [classifyAttempt] at hcl
      rw [h] at hcl
      simp only [Bool.false_and, Bool.false_eq_true, if_false] at hcl
      by_cases hok : isOkStatus status = true
      · simp only [hok, Bool.not_true, Bool.false_eq_true, if_false] at hcl
        exact (congrArg Prod.fst (Except.error.inj hcl)).symm
      · rw [Bool.not_eq_true] at hok
        simp only [hok, Bool.not_false, if_true] at hcl
        exact (congrArg Prod.fst (Except.error.inj hcl)).symm
    | payload errors errorMessage value =>
      simp only [retryableAttempt] at h
      have hrs : isRetryStatus status = false := by
        cases hx : isRetryStatus status with
        | false => rfl
        | true =>
          rw [hx, Bool.true_or] at h
          exact Bool.noConfusion h
      rw [hrs, Bool.false_or] at h
      simp only [classifyAttempt] at hcl
      rw [hrs] at hcl
      simp only [Bool.false_and, Bool.false_eq_true, if_false] at hcl
      by_cases hok : isOkStatus status = true
      · rw [hok, Bool.true_and] at h
        simp only [hok, Bool.not_true, Bool.false_eq_true, if_false] at hcl
        by_cases hemp : errors.isEmpty = true
        · simp only [hemp, Bool.not_true, Bool.false_eq_true, if_false]
            at hcl
          cases errorMessage with
          | some m =>
            simp only at hcl
            exact (congrArg Prod.fst (Except.error.inj hcl)).symm
          | none =>
            simp only at hcl
            exact Except.noConfusion hcl
        · rw [Bool.not_eq_true] at hemp
          simp only [hemp, Bool.not_false, if_true, h, Bool.false_and,
            Bool.false_eq_true, if_false] at hcl
          exact (congrArg Prod.fst (Except.error.inj hcl)).symm
      · rw [Bool.not_eq_true] at hok
        simp only [hok, Bool.not_false, if_true] at hcl
        exact (congrArg Prod.fst (Except.error.inj hcl)).symm

/-- C5: the client retries exactly once, after a 30-second sleep, when
and only when the first attempt falls in the retryable class (HTTP 429 or
5xx, or a rate-limited GraphQL payload); a second retryable-class failure
is surfaced with no third attempt, and a first attempt outside the class
is surfaced immediately after a single attempt with no sleep. -/
theorem claim_C5 {α : Type} (a0 a1 : ApiAttempt α) :
    (retryableAttempt a0 = true →
      (mondayApi a0 a1).attempts = 2 ∧
      (mondayApi a0 a1).sleptMs = 30000 ∧
      (retryableAttempt a1 = true →
        ∃ e, (mondayApi a0 a1).result = .error e)) ∧
    (retryableAttempt a0 = false →
      (mondayApi a0 a1).attempts = 1 ∧ (mondayApi a0 a1).sleptMs = 0 ∧
      (∀ v, classifyAttempt 0 a0 = .ok v →
        (mondayApi a0 a1).result = .ok v) ∧
      (∀ re e, classifyAttempt 0 a0 = .error (re, e) →
        (mondayApi a0 a1).result = .error e)) := by
  constructor
  · intro h0
    obtain ⟨e0, hcl0⟩ := retryable_classify_zero a0 h0
    cases hcl1 : classifyAttempt 1 a1 with
    | ok v =>
      refine ⟨?_, ?_, ?_⟩
      · simp [mondayApi, hcl0, hcl1]
      · simp [mondayApi, hcl0, hcl1]
      · intro h1
        obtain ⟨e1, hcl1b⟩ := retryable_classify_one a1 h1
        rw [hcl1b] at hcl1
        exact Except.noConfusion hcl1
    | error p =>
      refine ⟨?_, ?_, ?_⟩
      · simp [mondayApi, hcl0, hcl1]
      · simp [mondayApi, hcl0, hcl1]
      · intro _
        exact ⟨p.2, by simp [mondayApi, hcl0, hcl1]⟩
  · intro h0
    cases hcl0 : classifyAttempt 0 a0 with
    | ok v =>
      refine ⟨by simp [mondayApi, hcl0], by simp [mondayApi, hcl0], ?_, ?_⟩
      · intro w hw
        cases Except.ok.inj hw
        simp [mondayApi, hcl0]
      · intro re e hw
        exact Except.noConfusion hw
    | error p =>
      obtain ⟨re, e⟩ := p
      have hre : re = false := nonretryable_classify_zero a0 h0 re e hcl0
      subst hre
      refine ⟨by simp [mondayApi, hcl0], by simp [mondayApi, hcl0], ?_, ?_⟩
      · intro w hw
        exact Except.noConfusion hw
      · intro re2 e2 hw
        have he : e = e2 := congrArg Prod.snd (Except.error.inj hw)
        rw [← he]
        simp [mondayApi, hcl0]

/-- Witness for C5: a 500 followed by a second 500 makes exactly two
attempts with the 30-second sleep and surfaces an error; a 404 first
attempt is surfaced at once with one attempt and no sleep. -/
theorem claim_C5_witness :
    ((mondayApi (.resp 500 (.badJson : RespBody ℕ))
        (.resp 500 .badJson)).attempts = 2 ∧
      (mondayApi (.resp 500 (.badJson : RespBody ℕ))
        (.resp 500 .badJson)).sleptMs = 30000 ∧
      ∃ e, (mondayApi (.resp 500 (.badJson : RespBody ℕ))
        (.resp 500 .badJson)).result = .error e) ∧
    ((mondayApi (.resp 404 (.badJson : RespBody ℕ))
        (.resp 500 .badJson)).attempts = 1 ∧
      (mondayApi (.resp 404 (.badJson : RespBody ℕ))
        (.resp 500 .badJson)).sleptMs = 0) := by
  constructor
  · have h := (claim_C5 (.resp 500 (.badJson : RespBody ℕ))
      (.resp 500 .badJson)).1 (by decide)
    exact ⟨h.1, h.2.1, h.2.2 (by decide)⟩
  · have h := (claim_C5 (.resp 404 (.badJson : RespBody ℕ))
      (.resp 500 .badJson)).2 (by decide)
    exact ⟨h.1, h.2.1⟩

/-- January 1 is never inside US DST, so the New York offset is the
standard 300 minutes. -/
theorem nyOffset_jan (y : ℤ) : nyOffset ⟨y, 1, 1⟩ = 300 := by
  have h : usDST ⟨y, 1, 1⟩ = false := by
    simp [usDST]
  simp [nyOffset, h]

/-- July 1 is always inside US DST, so the New York offset is the
daylight 240 minutes. -/
theorem nyOffset_jul (y : ℤ) : nyOffset ⟨y, 7, 1⟩ = 240 := by
  have h : usDST ⟨y, 7, 1⟩ = true := by
    simp [usDST]
  simp [nyOffset, h]

/-- On a New York host the DST heuristic of the date parser agrees with
the US DST rule. -/
theorem hostIsDST_ny (c : CalDate) : hostIsDST nyOffset c = usDST c := by
  rw [hostIsDST, nyOffset_jan, nyOffset_jul]
  have hmax : max (300 : ℤ) 240 = 300 := by norm_num
  rw [hmax]
  cases hd : usDST c with
  | false => simp [nyOffset, hd]
  | true => simp [nyOffset, hd]

/-- C3 (amended): the interpreter reports `hasTime` exactly as the phrase
parser certainty; with an explicit hour the parsed instant is returned
unchanged; without one the UTC hour is overwritten with 9 plus the
Central offset chosen by the host DST heuristic (14 or 15), which on a
host clock in the configured `America/New_York` timezone lands on 10:00
New York civil time — not 09:00 — on every calendar date. -/
theorem claim_C3 (host : TzOffset) (c : ChronoParse) (out : JsInstant)
    (flag : Bool)
    (hp : parseNaturalDate host (some c) = some (out, flag)) :
    flag = c.certainHour ∧
    (c.certainHour = true → out = c.instant) ∧
    (c.certainHour = false →
      out.day = c.instant.day ∧
      out.utcHour = 9 + (if hostIsDST host c.instant.day then 5 else 6) ∧
      out.utcMin = 0 ∧
      (host = nyOffset → nyCivilHour out = 10)) := by
  cases hct : c.certainHour with
  | true =>
    simp only [parseNaturalDate, hct, if_true] at hp
    obtain ⟨h1, h2⟩ := Prod.mk.injEq .. ▸ Option.some.inj hp
    refine ⟨h2.symm, fun _ => h1.symm, ?_⟩
    intro hcontra
    exact Bool.noConfusion hcontra
  | false =>
    simp only [parseNaturalDate, hct, Bool.false_eq_true, if_false] at hp
    obtain ⟨h1, h2⟩ := Prod.mk.injEq .. ▸ Option.some.inj hp
    refine ⟨h2.symm, ?_, ?_⟩
    · intro hcontra
      exact Bool.noConfusion hcontra
    · intro _
      rw [← h1]
      refine ⟨rfl, rfl, rfl, ?_⟩
      intro hhost
      subst hhost
      rw [nyCivilHour]
      simp only [defaultUtcHour, hostIsDST_ny]
      cases hd : usDST c.instant.day with
      | true => simp [nyOffset, hd]
      | false => simp [nyOffset, hd]

/-- Witness for C3 on a concrete summer date with no explicit hour, on a
New York host: the parse succeeds, the flag is false, and the claim
yields UTC hour 14 and New York civil hour 10. -/
theorem claim_C3_witness :
    parseNaturalDate nyOffset
        (some ⟨⟨⟨2025, 7, 15⟩, 0, 0⟩, false⟩) =
      some (⟨⟨2025, 7, 15⟩, 14, 0⟩, false) ∧
    ((false : Bool) = false ∧
      (⟨⟨2025, 7, 15⟩, 14, 0⟩ : JsInstant).day = ⟨2025, 7, 15⟩ ∧
      (⟨⟨2025, 7, 15⟩, 14, 0⟩ : JsInstant).utcHour =
        9 + (if hostIsDST nyOffset ⟨2025, 7, 15⟩ then 5 else 6) ∧
      (⟨⟨2025, 7, 15⟩, 14, 0⟩ : JsInstant).utcMin = 0 ∧
      nyCivilHour ⟨⟨2025, 7, 15⟩, 14, 0⟩ = 10) := by
  have hp : parseNaturalDate nyOffset
      (some ⟨⟨⟨2025, 7, 15⟩, 0, 0⟩, false⟩) =
      some (⟨⟨2025, 7, 15⟩, 14, 0⟩, false) := by decide
  have h := claim_C3 nyOffset ⟨⟨⟨2025, 7, 15⟩, 0, 0⟩, false⟩
    ⟨⟨2025, 7, 15⟩, 14, 0⟩ false hp
  have h3 := h.2.2 rfl
  exact ⟨hp, h.1, h3.1, h3.2.1, h3.2.2.1, h3.2.2.2 rfl⟩

/-- Counterexample for C3 as stated: with the host clock in the
configured `America/New_York` timezone and no explicit hour, both a
winter and a summer date default to 10:00 New York civil time, never the
claimed 09:00 — the code writes 9 AM Central, one hour west of the
configured zone. -/
theorem claim_C3_counterexample :
    parseNaturalDate nyOffset
        (some ⟨⟨⟨2025, 1, 15⟩, 0, 0⟩, false⟩) =
      some (⟨⟨2025, 1, 15⟩, 15, 0⟩, false) ∧
    nyCivilHour ⟨⟨2025, 1, 15⟩, 15, 0⟩ = 10 ∧
    parseNaturalDate nyOffset
        (some ⟨⟨⟨2025, 7, 15⟩, 0, 0⟩, false⟩) =
      some (⟨⟨2025, 7, 15⟩, 14, 0⟩, false) ∧
    nyCivilHour ⟨⟨2025, 7, 15⟩, 14, 0⟩ = 10 ∧
    ¬ (10 : ℤ) = 9 := by
  refine ⟨by decide, by decide, by decide, by decide, by decide⟩

/-- Looking up the key just written finds the written value. -/
theorem find_setAssoc_self (fields : List (String × JsVal)) (k : String)
    (x : JsVal) :
    (setAssoc fields k x).find? (fun p => p.fst = k) = some (k, x) := by
  induction fields with
  | nil => simp [setAssoc, List.find?]
  | cons p rest ih =>
    rw [setAssoc]
    by_cases hp : p.fst = k
    · rw [if_pos hp]
      simp [List.find?]
    · rw [if_neg hp]
      simp only [List.find?, decide_eq_false hp]
      exact ih

/-- Writing one key leaves the lookup of any other key unchanged. -/
theorem find_setAssoc_ne (fields : List (String × JsVal)) (k k2 : String)
    (x : JsVal) (h : ¬ k2 = k) :
    (setAssoc fields k x).find? (fun p => p.fst = k2) =
      fields.find? (fun p => p.fst = k2) := by
  have h2 : ¬ k = k2 := fun hh => h hh.symm
  induction fields with
  | nil => simp [setAssoc, List.find?, h2]
  | cons p rest ih =>
    rw [setAssoc]
    by_cases hp : p.fst = k
    · rw [if_pos hp]
      have hpk2 : ¬ p.fst = k2 := by
        rw [hp]
        exact h2
      simp [List.find?, h2, hpk2]
    · rw [if_neg hp]
      by_cases hpk2 : p.fst = k2
      · simp [List.find?, hpk2]
      · simp only [List.find?, decide_eq_false hpk2]
        exact ih

/-- Reading back a just-written property of an object or array. -/
theorem getProp_setProp_self (v : JsVal) (k : String) (x : JsVal)
    (hset : settable v = true) : getProp (setProp v k x) k = some x := by
  cases v with
  | jobj fields => simp [setProp, getProp, find_setAssoc_self]
  | jarr elems props => simp [setProp, getProp, find_setAssoc_self]
  | jnull => exact Bool.noConfusion hset
  | jbool b => exact Bool.noConfusion hset
  | jnum q => exact Bool.noConfusion hset
  | jstr t => exact Bool.noConfusion hset

/-- Writing one property leaves the reads of any other unchanged. -/
theorem getProp_setProp_ne (v : JsVal) (k k2 : String) (x : JsVal)
    (h : ¬ k2 = k) : getProp (setProp v k x) k2 = getProp v k2 := by
  cases v with
  | jobj fields => simp [setProp, getProp, find_setAssoc_ne _ _ _ _ h]
  | jarr elems props => simp [setProp, getProp, find_setAssoc_ne _ _ _ _ h]
  | jnull => rfl
  | jbool b => rfl
  | jnum q => rfl
  | jstr t => rfl

/-- Property writes keep the value kind. -/
theorem settable_setProp (v : JsVal) (k : String) (x : JsVal) :
    settable (setProp v k x) = settable v := by
  cases v <;> rfl

/-- Each validation step keeps the value kind. -/
theorem settable_steps (v : JsVal) :
    settable (jsStep1 v) = settable v ∧
    settable (jsStep2 v) = settable v ∧
    settable (jsStep3 v) = settable v := by
  refine ⟨?_, ?_, ?_⟩
  · rw [jsStep1]
    by_cases h : jsFalsy (getProp v "action") = true
    · rw [if_pos h, settable_setProp]
    · rw [if_neg h]
  · rw [jsStep2]
    by_cases h : isJsNumber (getProp v "confidence") = true
    · rw [if_pos h]
    · rw [if_neg h, settable_setProp]
  · rw [jsStep3]
    by_cases h : isJsArray (getProp v "missing_info") = true
    · rw [if_pos h]
    · rw [if_neg h, settable_setProp]

/-- After the first step the `action` read of a settable value is never
falsy. -/
theorem jsStep1_action (v : JsVal) (hset : settable v = true) :
    jsFalsy (getProp (jsStep1 v) "action") = false := by
  rw [jsStep1]
  by_cases h : jsFalsy (getProp v "action") = true
  · rw [if_pos h, getProp_setProp_self v _ _ hset]
    rfl
  · rw [if_neg h]
    exact Bool.not_eq_true _ ▸ h

/-- After the second step the `confidence` read of a settable value is a
number. -/
theorem jsStep2_confidence (v : JsVal) (hset : settable v = true) :
    isJsNumber (getProp (jsStep2 v) "confidence") = true := by
  rw [jsStep2]
  by_cases h : isJsNumber (getProp v "confidence") = true
  · rw [if_pos h]
    exact h
  · rw [if_neg h, getProp_setProp_self v _ _ hset]
    rfl

/-- After the third step the `missing_info` read of a settable value is
an array. -/
theorem jsStep3_missing (v : JsVal) (hset : settable v = true) :
    isJsArray (getProp (jsStep3 v) "missing_info") = true := by
  rw [jsStep3]
  by_cases h : isJsArray (getProp v "missing_info") = true
  · rw [if_pos h]
    exact h
  · rw [if_neg h, getProp_setProp_self v _ _ hset]
    rfl

/-- The second step reads and writes only `confidence`. -/
theorem jsStep2_preserves (v : JsVal) (k2 : String)
    (h : ¬ k2 = "confidence") :
    getProp (jsStep2 v) k2 = getProp v k2 := by
  rw [jsStep2]
  by_cases hc : isJsNumber (getProp v "confidence") = true
  · rw [if_pos hc]
  · rw [if_neg hc, getProp_setProp_ne v _ _ _ h]

/-- The third step reads and writes only `missing_info`. -/
theorem jsStep3_preserves (v : JsVal) (k2 : String)
    (h : ¬ k2 = "missing_info") :
    getProp (jsStep3 v) k2 = getProp v k2 := by
  rw [jsStep3]
  by_cases hc : isJsArray (getProp v "missing_info") = true
  · rw [if_pos hc]
  · rw [if_neg hc, getProp_setProp_ne v _ _ _ h]

/-- The full validated value of a settable input has a numeric
confidence, an array of missing slots, and a non-falsy action. -/
theorem steps_shape (v : JsVal) (hset : settable v = true) :
    isJsNumber (getProp (jsStep3 (jsStep2 (jsStep1 v))) "confidence") =
      true ∧
    isJsArray (getProp (jsStep3 (jsStep2 (jsStep1 v))) "missing_info") =
      true ∧
    jsFalsy (getProp (jsStep3 (jsStep2 (jsStep1 v))) "action") = false := by
  have hset1 : settable (jsStep1 v) = true := by
    rw [(settable_steps v).1]
    exact hset
  have hset2 : settable (jsStep2 (jsStep1 v)) = true := by
    rw [(settable_steps (jsStep1 v)).2.1]
    exact hset1
  refine ⟨?_, ?_, ?_⟩
  · rw [jsStep3_preserves _ _ (by decide)]
    exact jsStep2_confidence (jsStep1 v) hset1
  · exact jsStep3_missing (jsStep2 (jsStep1 v)) hset2
  · rw [jsStep3_preserves _ _ (by decide),
      jsStep2_preserves _ _ (by decide)]
    exact jsStep1_action v hset

/-- Shape of every value the validation can return. -/
theorem jsValidate_shape (j v : JsVal) (h : jsValidate j = .ok v) :
    isJsNumber (getProp v "confidence") = true ∧
    isJsArray (getProp v "missing_info") = true ∧
    jsFalsy (getProp v "action") = false := by
  have hsteps : ∀ w : JsVal, settable w = false → jsStep3 (jsStep2
      (jsStep1 w)) = w := by
    intro w hw
    have h1 : jsStep1 w = w := by
      rw [jsStep1]
      by_cases hb : jsFalsy (getProp w "action") = true
      · rw [if_pos hb]
        cases w with
        | jobj fields => exact Bool.noConfusion hw
        | jarr elems props => exact Bool.noConfusion hw
        | jnull => rfl
        | jbool b => rfl
        | jnum q => rfl
        | jstr t => rfl
      · rw [if_neg hb]
    have h2 : jsStep2 w = w := by
      rw [jsStep2]
      by_cases hb : isJsNumber (getProp w "confidence") = true
      · rw [if_pos hb]
      · rw [if_neg hb]
        cases w with
        | jobj fields => exact Bool.noConfusion hw
        | jarr elems props => exact Bool.noConfusion hw
        | jnull => rfl
        | jbool b => rfl
        | jnum q => rfl
        | jstr t => rfl
    have h3 : jsStep3 w = w := by
      rw [jsStep3]
      by_cases hb : isJsArray (getProp w "missing_info") = true
      · rw [if_pos hb]
      · rw [if_neg hb]
        cases w with
        | jobj fields => exact Bool.noConfusion hw
        | jarr elems props => exact Bool.noConfusion hw
        | jnull => rfl
        | jbool b => rfl
        | jnum q => rfl
        | jstr t => rfl
    rw [h1, h2, h3]
  cases j with
  | jnull => exact Except.noConfusion h
  | jbool b =>
    simp only [jsValidate, isJNull, Bool.false_eq_true, if_false] at h
    rw [hsteps (.jbool b) rfl] at h
    simp [getProp, isJsArray] at h
  | jnum q =>
    simp only [jsValidate, isJNull, Bool.false_eq_true, if_false] at h
    rw [hsteps (.jnum q) rfl] at h
    simp [getProp, isJsArray] at h
  | jstr t =>
    simp only [jsValidate, isJNull, Bool.false_eq_true, if_false] at h
    rw [hsteps (.jstr t) rfl] at h
    simp [getProp, isJsArray] at h
  | jarr elems props =>
    simp only [jsValidate, isJNull, Bool.false_eq_true, if_false] at h
    have hsh := steps_shape (.jarr elems props) rfl
    by_cases harr : isJsArray (getProp (jsStep3 (jsStep2 (jsStep1
        (.jarr elems props)))) "missing_info") = true
    · rw [if_pos harr] at h
      cases Except.ok.inj h
      exact hsh
    · rw [if_neg harr] at h
      exact Except.noConfusion h
  | jobj fields =>
    simp only [jsValidate, isJNull, Bool.false_eq_true, if_false] at h
    have hsh := steps_shape (.jobj fields) rfl
    by_cases harr : isJsArray (getProp (jsStep3 (jsStep2 (jsStep1
        (.jobj fields)))) "missing_info") = true
    · rw [if_pos harr] at h
      cases Except.ok.inj h
      exact hsh
    · rw [if_neg harr] at h
      exact Except.noConfusion h

/-- Trimming a string whose first and last characters are not whitespace
changes nothing. -/
theorem jsTrim_of_clean (s : String) (c d : Char) (cs ds : List Char)
    (hcons : s.data = c :: cs) (hc1 : isJsWs c = false)
    (hrev : s.data.reverse = d :: ds) (hd1 : isJsWs d = false) :
    jsTrim s = s := by
  have h1 : s.data.dropWhile isJsWs = s.data := by
    rw [hcons, List.dropWhile_cons, hc1]
    simp
  rw [jsTrim, h1, hrev, List.dropWhile_cons, hd1]
  simp only [Bool.false_eq_true, if_false]
  rw [← hrev, List.reverse_reverse]

/-- A string not starting with a backtick passes the fence handling
untouched. -/
theorem stripFences_plain (s : String) (c : Char) (cs : List Char)
    (hcons : s.data = c :: cs) (hc2 : ¬ c = '`') :
    stripFences s = s := by
  have hbeq : ('`' == c) = false := beq_eq_false_iff_ne.mpr
    (fun hh => hc2 hh.symm)
  have hcond : ("```".data.isPrefixOf s.data) = false := by
    rw [hcons]
    show (('`' == c) && ("``".data.isPrefixOf cs)) = false
    rw [hbeq, Bool.false_and]
  rw [stripFences, hcond]
  simp

/-- A fence-wrapped clean body is stripped back to exactly the body. -/
theorem stripFences_fenceWrap (s : String) (c d : Char) (cs ds : List Char)
    (hcons : s.data = c :: cs) (hc1 : isJsWs c = false)
    (hrev : s.data.reverse = d :: ds) (hd1 : isJsWs d = false) :
    stripFences (fenceWrap s) = s := by
  have hlead : stripLeadFence (fenceWrap s).data =
      s.data ++ "\n```".data := by
    have h0 : stripLeadFence (fenceWrap s).data =
        List.dropWhile isJsWs ('\n' :: (s.data ++ "\n```".data)) := rfl
    rw [h0, List.dropWhile_cons]
    simp only [show isJsWs '\n' = true from rfl, if_true]
    rw [hcons, List.cons_append, List.dropWhile_cons, hc1]
    simp only [Bool.false_eq_true, if_false]
  have htrail : stripTrailFence (s.data ++ "\n```".data) = s.data := by
    have hrev2 : (s.data ++ "\n```".data).reverse =
        '`' :: '`' :: '`' :: '\n' :: s.data.reverse := by
      rw [List.reverse_append]
      rfl
    rw [stripTrailFence, hrev2]
    rw [if_pos (by rfl)]
    show (List.dropWhile isJsWs ('\n' :: s.data.reverse)).reverse = s.data
    rw [List.dropWhile_cons]
    simp only [show isJsWs '\n' = true from rfl, if_true]
    rw [hrev, List.dropWhile_cons, hd1]
    simp only [Bool.false_eq_true, if_false]
    rw [← hrev, List.reverse_reverse]
  have hpre : ("```".data.isPrefixOf (fenceWrap s).data) = true := rfl
  rw [stripFences, hpre]
  simp only [if_true]
  rw [hlead, htrail]

/-- Two replies whose trimmed, fence-stripped texts agree parse to the
same intent. -/
theorem parseIntent_replied_congr (jsonParse : String → Option JsVal)
    (t raw1 raw2 : String) (ht : (jsTrim t).data.isEmpty = false)
    (h1 : (jsTrim raw1).data.isEmpty = false)
    (h2 : (jsTrim raw2).data.isEmpty = false)
    (h : stripFences (jsTrim raw1) = stripFences (jsTrim raw2)) :
    parseIntent jsonParse (some t) (.replied raw1) =
      parseIntent jsonParse (some t) (.replied raw2) := by
  simp only [parseIntent, ht, Bool.false_eq_true, if_false, h1, h2, h]

/-- Evaluation of the parser when the JSON parse of the stripped reply
fails. -/
theorem parseIntent_parse_fail (jsonParse : String → Option JsVal)
    (t raw : String) (ht : (jsTrim t).data.isEmpty = false)
    (hraw : (jsTrim raw).data.isEmpty = false)
    (hj : jsonParse (stripFences (jsTrim raw)) = none) :
    parseIntent jsonParse (some t) (.replied raw) =
      caughtIntent runtimeErrorText := by
  simp only [parseIntent, ht, Bool.false_eq_true, if_false, hraw, hj]

/-- Evaluation of the parser when the JSON parse of the stripped reply
succeeds. -/
theorem parseIntent_parse_ok (jsonParse : String → Option JsVal)
    (t raw : String) (ht : (jsTrim t).data.isEmpty = false)
    (hraw : (jsTrim raw).data.isEmpty = false) (j : JsVal)
    (hj : jsonParse (stripFences (jsTrim raw)) = some j) :
    parseIntent jsonParse (some t) (.replied raw) =
      (match jsValidate j with
        | .ok v => v
        | .error _ => caughtIntent runtimeErrorText) := by
  simp only [parseIntent, ht, Bool.false_eq_true, if_false, hraw, hj]

/-- C6 (amended): the fallback intent parser is a total function whose
result always carries a numeric `confidence`, an array `missing_info`,
and a defined, non-falsy `action` (defaulted to the string "unknown" when
the payload lacked one — though a truthy non-string action supplied by
the classifier passes through unchanged); a blank reply yields the
unknown intent with confidence 0, a JSON parse failure yields the caught
unknown intent with confidence 0, and code-fence wrapping around a clean
reply body is stripped before parsing, leaving the outcome unchanged. -/
theorem claim_C6 (jsonParse : String → Option JsVal)
    (messageText : Option String) (resp : ClassifierResult) :
    isJsNumber (getProp (parseIntent jsonParse messageText resp)
        "confidence") = true ∧
    isJsArray (getProp (parseIntent jsonParse messageText resp)
        "missing_info") = true ∧
    jsFalsy (getProp (parseIntent jsonParse messageText resp) "action") =
      false ∧
    (∀ raw, resp = .replied raw → (jsTrim raw).data.isEmpty = true →
      parseIntent jsonParse messageText resp = unknownIntent) ∧
    (∀ t raw, messageText = some t → (jsTrim t).data.isEmpty = false →
      resp = .replied raw → (jsTrim raw).data.isEmpty = false →
      jsonParse (stripFences (jsTrim raw)) = none →
      parseIntent jsonParse messageText resp =
        caughtIntent runtimeErrorText) ∧
    (∀ (s : String) (c d : Char) (cs ds : List Char),
      s.data = c :: cs → isJsWs c = false → ¬ c = '`' →
      s.data.reverse = d :: ds → isJsWs d = false →
      parseIntent jsonParse messageText (.replied (fenceWrap s)) =
        parseIntent jsonParse messageText (.replied s)) := by
  have hshape : ∀ (mt : Option String) (r : ClassifierResult),
      isJsNumber (getProp (parseIntent jsonParse mt r) "confidence") =
        true ∧
      isJsArray (getProp (parseIntent jsonParse mt r) "missing_info") =
        true ∧
      jsFalsy (getProp (parseIntent jsonParse mt r) "action") = false := by
    intro mt r
    rcases mt with _ | t
    · exact ⟨rfl, rfl, rfl⟩
    · by_cases ht : (jsTrim t).data.isEmpty = true
      · simp only [parseIntent, ht, if_true]
        exact ⟨rfl, rfl, rfl⟩
      · rw [Bool.not_eq_true] at ht
        rcases r with msg | raw
        · simp only [parseIntent, ht, Bool.false_eq_true, if_false]
          exact ⟨rfl, rfl, rfl⟩
        · by_cases hr : (jsTrim raw).data.isEmpty = true
          · simp only [parseIntent, ht, Bool.false_eq_true, if_false, hr,
              if_true]
            exact ⟨rfl, rfl, rfl⟩
          · rw [Bool.not_eq_true] at hr
            cases hj : jsonParse (stripFences (jsTrim raw)) with
            | none =>
              rw [parseIntent_parse_fail jsonParse t raw ht hr hj]
              exact ⟨rfl, rfl, rfl⟩
            | some j =>
              rw [parseIntent_parse_ok jsonParse t raw ht hr j hj]
              cases hv : jsValidate j with
              | error u => exact ⟨rfl, rfl, rfl⟩
              | ok v => exact jsValidate_shape j v hv
  obtain ⟨hs1, hs2, hs3⟩ := hshape messageText resp
  refine ⟨hs1, hs2, hs3, ?_, ?_, ?_⟩
  · intro raw hresp hblank
    subst hresp
    rcases messageText with _ | t
    · rfl
    · by_cases ht : (jsTrim t).data.isEmpty = true
      · simp only [parseIntent, ht, if_true]
      · rw [Bool.not_eq_true] at ht
        simp only [parseIntent, ht, Bool.false_eq_true, if_false, hblank,
          if_true]
  · intro t raw hmt ht hresp hraw hj
    subst hmt
    subst hresp
    exact parseIntent_parse_fail jsonParse t raw ht hraw hj
  · intro s c d cs ds hcons hc1 hc2 hrev hd1
    rcases messageText with _ | t
    · rfl
    · by_cases ht : (jsTrim t).data.isEmpty = true
      · simp only [parseIntent, ht, if_true]
      · rw [Bool.not_eq_true] at ht
        have htrim1 : jsTrim (fenceWrap s) = fenceWrap s := by
          refine jsTrim_of_clean (fenceWrap s) '`' '`'
            (("``json\n".data ++ s.data) ++ "\n```".data)
            ('`' :: '`' :: '\n' ::
              (s.data.reverse ++ "```json\n".data.reverse)) rfl rfl ?_ rfl
          rw [show (fenceWrap s).data =
              ("```json\n".data ++ s.data) ++ "\n```".data from rfl,
            List.reverse_append, List.reverse_append]
          rfl
        have htrim2 : jsTrim s = s :=
          jsTrim_of_clean s c d cs ds hcons hc1 hrev hd1
        have hne1 : (jsTrim (fenceWrap s)).data.isEmpty = false := by
          rw [htrim1]
          rfl
        have hne2 : (jsTrim s).data.isEmpty = false := by
          rw [htrim2, hcons]
          rfl
        refine parseIntent_replied_congr jsonParse t (fenceWrap s) s ht
          hne1 hne2 ?_
        rw [htrim1, htrim2,
          stripFences_fenceWrap s c d cs ds hcons hc1 hrev hd1,
          stripFences_plain s c cs hcons hc2]

/-- Witness for C6 at concrete inputs: the fenced and unfenced versions
of the same reply parse identically, and a blank reply returns the
unknown intent. -/
theorem claim_C6_witness :
    parseIntent sampleParse (some "hello")
        (.replied (fenceWrap "\x7b\"action\": 7\x7d")) =
      parseIntent sampleParse (some "hello")
        (.replied "\x7b\"action\": 7\x7d") ∧
    parseIntent sampleParse (some "hello") (.replied "   ") =
      unknownIntent :=
  ⟨(claim_C6 sampleParse (some "hello")
        (.replied "\x7b\"action\": 7\x7d")).2.2.2.2.2
      "\x7b\"action\": 7\x7d" '\x7b' '\x7d'
      "\"action\": 7\x7d".data "\x7b\"action\": 7".data.reverse
      rfl rfl (by decide) (by rfl) rfl,
    (claim_C6 sampleParse (some "hello") (.replied "   ")).2.2.2.1
      "   " rfl rfl⟩

/-- Counterexample for C6 as stated: the well-formed JSON reply
`(\x7b"action": 7\x7d)` passes validation with its numeric action kept,
so the returned intent carries the number 7 — not a string — in the
`action` field. -/
theorem claim_C6_counterexample :
    parseIntent sampleParse (some "hello")
        (.replied "\x7b\"action\": 7\x7d") =
      .jobj [("action", .jnum 7), ("confidence", .jnum (1/2)),
        ("missing_info", .jarr [] [])] ∧
    getProp (parseIntent sampleParse (some "hello")
        (.replied "\x7b\"action\": 7\x7d")) "action" = some (.jnum 7) ∧
    isJsString (getProp (parseIntent sampleParse (some "hello")
        (.replied "\x7b\"action\": 7\x7d")) "action") = false := by
  refine ⟨rfl, rfl, rfl⟩

end FollowUpBot
